import Mathlib

/-!
Verification of the `fancy_io` terminal text-styling toolkit
(repository julian-hoelz/mastermind, file `src/fancy_io.py`).

The development shallowly embeds the parts of `fancy_io.py` that the
checked properties are about:

* the mode registry (color / style / reset modes and their key-character
  lookup tables),
* the format-tag scanner `FormatTag._calc_mode_attrs` together with
  `FormatTag._parse_256_color` (the nested helper `set_n_256_color`),
* the escape-sequence rendering chain `_code_list` / `escseq` /
  `FormatTag.full_escseq`,
* the bracket validator `_check_brackets_match`,
* the format-string compiler `fancyformat` (escape substitution,
  validation, implicit reset placement, tag extraction, reassembly),
* the classification logic shared by the interactive prompt variants
  (`fancyinput`, `fancyinput_yn`, `fancyinput_int`,
  `fancyinput_dict_options`, `fancyinput_options`) and the
  `CommandInputException` payload.

Strings from the Python side are modelled as `List Char`; rendered
escape-sequence output is modelled as `String`.  Exceptions are modelled
with `Except`.  Terminal side effects (cursor movement, marking of typed
input) are not modelled; the classification functions return the outcome
of one read/classify iteration as a value instead, and the exit path
records how often the caller-supplied cleanup callback would run.
-/

namespace FancyIO

/-! ### Small helpers mirroring Python primitives -/

/-- `_append_if_not_in_list` from `fancy_io.py`: append a value to a list
unless it is already present. -/
def _append_if_not_in_list {α : Type} [DecidableEq α] (ls : List α) (value : α) : List α :=
  if value ∈ ls then ls else ls ++ [value]

/-- Numeric value of a digit string, as computed by Python `int` on a
string of decimal digits (`FormatTag._parse_256_color` only ever passes
such strings). -/
def digitsToNat (ds : List Char) : Nat :=
  ds.foldl (fun a c => 10 * a + (c.toNat - 48)) 0

/-- The whitespace characters that Python `str.split()` (no argument)
splits on. -/
def isPySpace (c : Char) : Bool :=
  c = ' ' || c = '\t' || c = '\n' || c = '\x0b' || c = '\x0c' || c = '\r'

/-- Helper for `pySplit`: `acc` holds the characters of the current word
in reverse order. -/
def pySplitAux : List Char → List Char → List (List Char)
  | [], acc => if acc = [] then [] else [acc.reverse]
  | c :: rest, acc =>
    if isPySpace c then
      if acc = [] then pySplitAux rest [] else acc.reverse :: pySplitAux rest []
    else pySplitAux rest (c :: acc)

/-- Python `str.split()` with no argument: split on runs of whitespace,
discarding empty fields. -/
def pySplit (s : List Char) : List (List Char) :=
  pySplitAux s []

/-- Python `str.lower()` restricted to the ASCII inputs used here. -/
def pyLower (s : List Char) : List Char :=
  s.map Char.toLower

/-! ### Mode registry

`Mode` and its subclasses carry a name, description, SGR code(s) and a
single-character markup key.  Only the fields observable through the
verified claims are kept: codes and keys.  `ResetMode.code` is kept as a
string because `RESET_ALL_STYLES` uses a compound code string and
`_code_list` renders every reset code with `str(...)`. -/

structure ResetMode where
  code : String
  key : Char
deriving DecidableEq, Repr

structure StyleMode where
  code : Nat
  key : Char
  reset_mode : ResetMode
deriving DecidableEq, Repr

structure ColorMode where
  fg_code : Nat
  bg_code : Nat
  key : Char
deriving DecidableEq, Repr

def DEFAULT_COLOR : ColorMode := ⟨39, 49, 'd'⟩

def BLACK : ColorMode := ⟨30, 40, 'n'⟩

def RED : ColorMode := ⟨31, 41, 'r'⟩

def GREEN : ColorMode := ⟨32, 42, 'g'⟩

def YELLOW : ColorMode := ⟨33, 43, 'y'⟩

def BLUE : ColorMode := ⟨34, 44, 'b'⟩

def MAGENTA : ColorMode := ⟨35, 45, 'm'⟩

def CYAN : ColorMode := ⟨36, 46, 'c'⟩

def WHITE : ColorMode := ⟨37, 47, 'w'⟩

def BBLACK : ColorMode := ⟨90, 100, 'N'⟩

def BRED : ColorMode := ⟨91, 101, 'R'⟩

def BGREEN : ColorMode := ⟨92, 102, 'G'⟩

def BYELLOW : ColorMode := ⟨93, 103, 'Y'⟩

def BBLUE : ColorMode := ⟨94, 104, 'B'⟩

def BMAGENTA : ColorMode := ⟨95, 105, 'M'⟩

def BCYAN : ColorMode := ⟨96, 106, 'C'⟩

def BWHITE : ColorMode := ⟨97, 107, 'W'⟩

def RESET_ALL : ResetMode := ⟨"0", 'a'⟩

def RESET_ALL_STYLES : ResetMode := ⟨"22;23;24;25;27;28;29", 's'⟩

def RESET_BOLD_DIM : ResetMode := ⟨"22", 'f'⟩

def RESET_ITALIC : ResetMode := ⟨"23", 'i'⟩

def RESET_UNDERLINE : ResetMode := ⟨"24", 'u'⟩

def RESET_BLINKING : ResetMode := ⟨"25", 'o'⟩

def RESET_INVERSED : ResetMode := ⟨"27", 'I'⟩

def RESET_HIDDEN : ResetMode := ⟨"28", 'x'⟩

def RESET_STRIKETHROUGH : ResetMode := ⟨"29", 'S'⟩

def BOLD : StyleMode := ⟨1, 'f', RESET_BOLD_DIM⟩

def DIM : StyleMode := ⟨2, 'D', RESET_BOLD_DIM⟩

def ITALIC : StyleMode := ⟨3, 'i', RESET_ITALIC⟩

def UNDERLINE : StyleMode := ⟨4, 'u', RESET_UNDERLINE⟩

def DOUBLE_UNDERLINE : StyleMode := ⟨21, 'U', RESET_UNDERLINE⟩

def BLINKING : StyleMode := ⟨5, 'o', RESET_BLINKING⟩

def RAPID_BLINKING : StyleMode := ⟨6, 'O', RESET_BLINKING⟩

def INVERSED : StyleMode := ⟨7, 'I', RESET_INVERSED⟩

def HIDDEN : StyleMode := ⟨8, 'x', RESET_HIDDEN⟩

def STRIKETHROUGH : StyleMode := ⟨9, 'S', RESET_STRIKETHROUGH⟩

def COLOR_MODES : List ColorMode :=
  [DEFAULT_COLOR, BLACK, RED, GREEN, YELLOW, BLUE, MAGENTA, CYAN, WHITE,
   BBLACK, BRED, BGREEN, BYELLOW, BBLUE, BMAGENTA, BCYAN, BWHITE]

def STYLE_MODES : List StyleMode :=
  [BOLD, DIM, ITALIC, UNDERLINE, DOUBLE_UNDERLINE, BLINKING, RAPID_BLINKING,
   INVERSED, HIDDEN, STRIKETHROUGH]

def RESET_MODES : List ResetMode :=
  [RESET_ALL, RESET_ALL_STYLES, RESET_BOLD_DIM, RESET_ITALIC, RESET_UNDERLINE,
   RESET_BLINKING, RESET_INVERSED, RESET_HIDDEN, RESET_STRIKETHROUGH]

/-- `_COLOR_MODES_FOR_FORMAT_CHARS`: lookup of a color mode by its
foreground format key. -/
def _COLOR_MODES_FOR_FORMAT_CHARS (c : Char) : Option ColorMode :=
  COLOR_MODES.find? (fun m => m.key = c)

/-- `_STYLE_MODES_FOR_FORMAT_CHARS`: lookup of a style mode by its format
key. -/
def _STYLE_MODES_FOR_FORMAT_CHARS (c : Char) : Option StyleMode :=
  STYLE_MODES.find? (fun m => m.key = c)

/-- `_RESET_MODES_FOR_FORMAT_CHARS`: lookup of a reset mode by the letter
of its format key (the character after `'!'`). -/
def _RESET_MODES_FOR_FORMAT_CHARS (c : Char) : Option ResetMode :=
  RESET_MODES.find? (fun m => m.key = c)

/-- `_ALL_KEY_LETTERS`: the keys of the merged dictionary
`_COLOR_MODES_FOR_FORMAT_CHARS | _STYLE_MODES_FOR_FORMAT_CHARS |
_RESET_MODES_FOR_FORMAT_CHARS`, in first-occurrence order (Python dict
merge keeps the first position of every key). -/
def _ALL_KEY_LETTERS : List Char :=
  (COLOR_MODES.map (·.key) ++ STYLE_MODES.map (·.key) ++ RESET_MODES.map (·.key)).foldl
    (fun acc c => if c ∈ acc then acc else acc ++ [c]) []

/-! ### The format-tag scanner (`FormatTag._calc_mode_attrs`)

The Python scanner iterates once over the tag content with two sticky
flags (`reset_marker`, `bg_marker`) and the start index of an open
256-color numeric literal.  Here the open literal is carried as the list
of its digit characters (the slice `tag_content[n_256_start:i]` is always
a contiguous digit run, because every non-digit character finalizes the
literal). -/

/-- A color slot holds either a symbolic color mode or a 256-color
palette index (`bg_color` / `fg_color` in `FormatTag`). -/
inductive ColorVal where
  | mode (m : ColorMode)
  | num (n : Nat)
deriving DecidableEq, Repr

/-- Failures of tag parsing.  `invalid_key` is
`FormatTag._invalid_key_error` (a `ValueError`) with its payload;
`bad_brackets` is the `ValueError` raised when the tag text is not
wrapped in the configured brackets; `type_error` models the `TypeError`
raised at the call `self._invalid_key_error('!', char)`, which passes two
positional arguments to a one-argument method. -/
inductive TagErr where
  | bad_brackets (str_value : List Char)
  | invalid_key (invalid : String)
  | type_error
deriving DecidableEq, Repr

/-- Scanner state of `FormatTag._calc_mode_attrs`. -/
structure ScanSt where
  resets : List ResetMode
  styles : List StyleMode
  bg_color : Option ColorVal
  fg_color : Option ColorVal
  resets_of_styles : List ResetMode
  reset_marker : Bool
  bg_marker : Bool
  n_256 : Option (List Char)
deriving DecidableEq, Repr

/-- The initial scanner state (all attribute lists empty, both flags
clear, no numeric literal open). -/
def initSt : ScanSt :=
  { resets := [], styles := [], bg_color := none, fg_color := none,
    resets_of_styles := [], reset_marker := false, bg_marker := false, n_256 := none }

/-- The parsed attributes stored into the `FormatTag` object at the end
of `_calc_mode_attrs`. -/
structure TagAttrs where
  resets : List ResetMode
  styles : List StyleMode
  bg_color : Option ColorVal
  fg_color : Option ColorVal
  resets_of_styles : List ResetMode
deriving DecidableEq, Repr

/-- Projection from a final scanner state to the stored attributes. -/
def ScanSt.toAttrs (st : ScanSt) : TagAttrs :=
  { resets := st.resets, styles := st.styles, bg_color := st.bg_color,
    fg_color := st.fg_color, resets_of_styles := st.resets_of_styles }

/-- The empty attribute set (empty tag content). -/
def emptyAttrs : TagAttrs :=
  { resets := [], styles := [], bg_color := none, fg_color := none, resets_of_styles := [] }

/-- The nested helper `set_n_256_color` of `_calc_mode_attrs`, inlining
`FormatTag._parse_256_color`: finalize a pending numeric literal (if
any) as a color assignment — background if `bg_marker` is set, else
foreground — erroring when the value exceeds 255, and clear the literal
and the `bg_marker` flag. -/
def set_n_256_color (st : ScanSt) : Except TagErr ScanSt :=
  match st.n_256 with
  | none => .ok st
  | some ds =>
    let n := digitsToNat ds
    if n > 255 then .error (.invalid_key (String.mk ds))
    else .ok { st with
      fg_color := if st.bg_marker then st.fg_color else some (.num n),
      bg_color := if st.bg_marker then some (.num n) else st.bg_color,
      n_256 := none,
      bg_marker := false }

/-- The separator characters of the tag grammar (iteration body, branch
`char in ' \t,;'`). -/
def tagSeparators : List Char := [' ', '\t', ',', ';']

/-- One iteration of the `for (i, char) in enumerate(tag_content)` loop
of `_calc_mode_attrs`. -/
def scanStep (st : ScanSt) (c : Char) : Except TagErr ScanSt :=
  if c = '#' then
    if st.reset_marker then .error (.invalid_key "!#")
    else if st.bg_marker then .error (.invalid_key "##")
    else do
      let st ← set_n_256_color st
      return { st with bg_marker := true }
  else if c = '!' then
    if st.reset_marker then .error (.invalid_key "!!")
    else if st.bg_marker then .error (.invalid_key "#!")
    else do
      let st ← set_n_256_color st
      return { st with reset_marker := true }
  else if c ∈ tagSeparators then
    if st.reset_marker then .error (.invalid_key (String.mk ['!', c]))
    else do
      let st ← set_n_256_color st
      if st.bg_marker then .error (.invalid_key (String.mk ['#', c]))
      else return st
  else if c.isDigit then
    if st.reset_marker then .error (.invalid_key (String.mk ['!', c]))
    else .ok { st with n_256 := some (st.n_256.getD [] ++ [c]) }
  else
    if c ∉ _ALL_KEY_LETTERS then .error (.invalid_key (String.mk [c]))
    else do
      let st ← set_n_256_color st
      if st.bg_marker then
        match _COLOR_MODES_FOR_FORMAT_CHARS c with
        | none => .error (.invalid_key (String.mk ['#', c]))
        | some m => return { st with bg_color := some (.mode m), bg_marker := false }
      else if st.reset_marker then
        match _RESET_MODES_FOR_FORMAT_CHARS c with
        | none => .error .type_error
        | some rm =>
          return { st with resets := _append_if_not_in_list st.resets rm,
                           reset_marker := false }
      else
        match _STYLE_MODES_FOR_FORMAT_CHARS c with
        | none =>
          -- `fg_color = _COLOR_MODES_FOR_FORMAT_CHARS.get(char)` assigns the
          -- lookup result directly, so an unmatched key stores `None`
          -- (the guarding `raise` is commented out in the source).
          return { st with fg_color := (_COLOR_MODES_FOR_FORMAT_CHARS c).map .mode }
        | some style =>
          return { st with styles := _append_if_not_in_list st.styles style,
                           resets_of_styles :=
                             _append_if_not_in_list st.resets_of_styles style.reset_mode }

/-- Run the scanner over the whole tag content. -/
def scanList (st : ScanSt) : List Char → Except TagErr ScanSt
  | [] => .ok st
  | c :: rest => do
    let st' ← scanStep st c
    scanList st' rest

/-- `FormatTag._calc_mode_attrs` for a tag text `str_value` and bracket
pair `(ob, cb)`: check the bracket wrap, scan the content, reject a
trailing marker, finalize a still-open numeric literal, and collect the
attributes. -/
def _calc_mode_attrs (str_value : List Char) (ob cb : Char) : Except TagErr TagAttrs :=
  if ¬(str_value.head? = some ob ∧ str_value.getLast? = some cb) then
    .error (.bad_brackets str_value)
  else
    let tag_content := (str_value.drop 1).dropLast
    if tag_content.isEmpty then .ok emptyAttrs
    else do
      let st ← scanList initSt tag_content
      if tag_content.getLast? = some '!' ∨ tag_content.getLast? = some '#' then
        .error (.invalid_key "expected key after '!' or '#'")
      else do
        let st ← set_n_256_color st
        return st.toAttrs

/-! ### Escape-sequence rendering (`_code_list`, `escseq`,
`FormatTag.full_escseq`) -/

/-- `_code_for_color_mode_or_num`: palette indices render with the
`38;5;n` / `48;5;n` prefix, symbolic modes render their registry code. -/
def _code_for_color_mode_or_num (color : ColorVal) (for_bg : Bool) : String :=
  match color with
  | .num n => (if for_bg then "48" else "38") ++ ";5;" ++ toString n
  | .mode m => toString (if for_bg then m.bg_code else m.fg_code)

/-- `_code_list`: reset codes, then style codes, then the background
code, then the foreground code. -/
def _code_list (resets : List ResetMode) (fg bg : Option ColorVal)
    (styles : List StyleMode) : List String :=
  (resets.map (·.code) ++ styles.map (fun s => toString s.code))
    ++ (match bg with
        | none => []
        | some b => [_code_for_color_mode_or_num b true])
    ++ (match fg with
        | none => []
        | some f => [_code_for_color_mode_or_num f false])

/-- `escseq`: join the codes with `';'` inside `ESC [ … m`, or the empty
string when there are no codes. -/
def escseq (resets : List ResetMode) (fg bg : Option ColorVal)
    (styles : List StyleMode) : String :=
  let codes := _code_list resets fg bg styles
  if codes.isEmpty then ""
  else "\x1b[" ++ String.intercalate ";" codes ++ "m"

/-- `FormatTag.full_escseq` as computed in `_calc_escseqs`:
`escseq(resets=self.resets, fg=self.fg_color, bg=self.bg_color,
styles=self.styles)`. -/
def TagAttrs.full_escseq (a : TagAttrs) : String :=
  escseq a.resets a.fg_color a.bg_color a.styles

/-! ### Bracket validator (`_check_brackets_match`) -/

/-- The three mismatch errors of `_check_brackets_match`, with the index
payloads passed to `_brackets_mismatch_error`: `double_open` carries the
index of the pending opener and of the current opener, the other two
carry one index. -/
inductive BracketErr where
  | double_open (obi i : Nat)
  | unmatched_closed (i : Nat)
  | unclosed_open (obi : Nat)
deriving DecidableEq, Repr

/-- Loop of `_check_brackets_match`: `i` is the index of the next
character, `obi` the index of the last seen opener, `opened` whether a
tag is currently open. -/
def checkBracketsLoop (ob cb : Char) : List Char → Nat → Nat → Bool → Except BracketErr Unit
  | [], _, obi, opened =>
    if opened then .error (.unclosed_open obi) else .ok ()
  | c :: rest, i, obi, opened =>
    if c = ob then
      if opened then .error (.double_open obi i)
      else checkBracketsLoop ob cb rest (i + 1) i true
    else if c = cb then
      if !opened then .error (.unmatched_closed i)
      else checkBracketsLoop ob cb rest (i + 1) obi false
    else checkBracketsLoop ob cb rest (i + 1) obi opened

/-- `_check_brackets_match(format_str, brackets)`. -/
def _check_brackets_match (format_str : List Char) (ob cb : Char) : Except BracketErr Unit :=
  checkBracketsLoop ob cb format_str 0 0 false

/-! ### Format-string compiler (`fancyformat`)

Python's `re.findall`/`re.split` on the non-greedy pattern
`'<.*?>'` are realized by a single left-to-right scan: a match starts at
a bracket `ob` and extends to the nearest following `cb` with no newline
in between ( `.` does not match `'\n'` ); if no such close exists the
opener is literal text.  `re.sub(r'<.+?>', '', …)` used by
`remove_format_tags` is the same scan except that the match content must
be non-empty.  On the bracket-checked strings `fancyformat` feeds to the
regex the two coincide with Python's behavior. -/

/-- State machine realizing one `re`-scan.  `minOne` selects the `'.+?'`
variant (non-empty tag content).  Returns the literal parts and the tag
substrings; there is always exactly one more part than tags. -/
def splitTagsAux (ob cb : Char) (minOne : Bool) :
    List Char → List Char → Option (List Char) → List (List Char) × List (List Char)
  | [], part, none => ([part.reverse], [])
  | [], part, some cand =>
    -- end of input with an open candidate: no close bracket follows, so
    -- the regex cannot match and the candidate is literal text
    ([(cand ++ part).reverse], [])
  | c :: rest, part, none =>
    if c = ob then splitTagsAux ob cb minOne rest part (some [c])
    else splitTagsAux ob cb minOne rest (c :: part) none
  | c :: rest, part, some cand =>
    if c = cb ∧ ¬(minOne ∧ cand.length = 1) then
      let (parts, tags) := splitTagsAux ob cb minOne rest [] none
      (part.reverse :: parts, (c :: cand).reverse :: tags)
    else if c = '\n' then
      splitTagsAux ob cb minOne rest (c :: cand ++ part) none
    else
      splitTagsAux ob cb minOne rest part (some (c :: cand))

/-- Split a string into literal parts and tag substrings, as
`re.split(tag_re, s)` / `re.findall(tag_re, s)` do for
`tag_re = ob ++ '.*?' ++ cb` (with `minOne = false`) or
`ob ++ '.+?' ++ cb` (with `minOne = true`). -/
def splitTags (ob cb : Char) (minOne : Bool) (s : List Char) :
    List (List Char) × List (List Char) :=
  splitTagsAux ob cb minOne s [] none

/-- Python `str.replace(a + b, r)` for a two-character pattern and a
one-character replacement (left-to-right, non-overlapping). -/
def replace2 (a b r : Char) : List Char → List Char
  | [] => []
  | [c] => [c]
  | c :: d :: rest =>
    if c = a ∧ d = b then r :: replace2 a b r rest
    else c :: replace2 a b r (d :: rest)

/-- Python `str.replace(a, b)` for single characters. -/
def replace1 (a b : Char) (s : List Char) : List Char :=
  s.map (fun c => if c = a then b else c)

/-- The private sentinel characters `_BracketsRepl.OPEN` and
`_BracketsRepl.CLOSED`. -/
def BRACKETS_REPL_OPEN : Char := '\x11'

def BRACKETS_REPL_CLOSED : Char := '\x12'

/-- `_place_reset_all_tags`: textually prepend/append the literal tag
`'<!a>'` (hard-coded with `<``>` brackets). -/
def _place_reset_all_tags (format_str : List Char)
    (start_reset_all end_reset_all : Bool) : List Char :=
  let fs := if start_reset_all then ('<' :: '!' :: 'a' :: '>' :: format_str) else format_str
  if end_reset_all then fs ++ ['<', '!', 'a', '>'] else fs

/-- Errors escaping `fancyformat`: a bracket mismatch from the
validator, or a malformed tag from the tag compiler. -/
inductive FormatErr where
  | brackets (e : BracketErr)
  | tag (e : TagErr)
deriving DecidableEq, Repr

/-- Interleave literal parts and compiled tag sequences:
`''.join(p + s for (p, s) in zip(parts, escseqs)) + parts[-1]`. -/
def interleaveParts : List (List Char) → List (List Char) → List Char
  | [], _ => []
  | [p], _ => p
  | p :: parts, [] => p ++ interleaveParts parts []
  | p :: parts, s :: seqs => p ++ s ++ interleaveParts parts seqs

/-- The list comprehension
`[FormatTag(t, tag_brackets).full_escseq for t in tags]` of
`fancyformat`: compile every extracted tag to its full escape sequence,
propagating the first `MalformedTagError`. -/
def compileTags (ob cb : Char) (tags : List (List Char)) :
    Except FormatErr (List (List Char)) :=
  tags.mapM (fun t =>
    match _calc_mode_attrs t ob cb with
    | .error e => .error (FormatErr.tag e)
    | .ok a => .ok a.full_escseq.toList)

/-- `fancyformat(format_str, tag_brackets, start_reset_all,
end_reset_all)`: substitute backslash-escaped brackets with sentinels,
validate brackets, place implicit reset tags, extract and compile tags,
reassemble, and restore the sentinels. -/
def fancyformat (format_str : List Char) (ob cb : Char)
    (start_reset_all end_reset_all : Bool) : Except FormatErr (List Char) :=
  let fs := replace2 '\\' ob BRACKETS_REPL_OPEN format_str
  let fs := replace2 '\\' cb BRACKETS_REPL_CLOSED fs
  match _check_brackets_match fs ob cb with
  | .error e => .error (.brackets e)
  | .ok _ =>
    let fs := _place_reset_all_tags fs start_reset_all end_reset_all
    let (parts, tags) := splitTags ob cb false fs
    match compileTags ob cb tags with
    | .error e => .error e
    | .ok escseqs =>
      let result := interleaveParts parts escseqs
      .ok (replace1 BRACKETS_REPL_CLOSED cb (replace1 BRACKETS_REPL_OPEN ob result))

/-- `remove_format_tags`: strip all (non-empty) tag substrings after
protecting backslash-escaped brackets (hard-coded `<``>` brackets). -/
def remove_format_tags (format_str : List Char) : List Char :=
  let fs := replace2 '\\' '<' BRACKETS_REPL_OPEN format_str
  let fs := replace2 '\\' '>' BRACKETS_REPL_CLOSED fs
  let (parts, _) := splitTags '<' '>' true fs
  let result := parts.foldr (· ++ ·) []
  let result := replace1 BRACKETS_REPL_OPEN '<' result
  replace1 BRACKETS_REPL_CLOSED '>' result

/-! ### Interactive prompt engine: input classification

The prompt variants share a read/classify loop.  One loop iteration on a
(non-empty) input line is modelled as a pure function from the line to a
`StepOutcome`: the non-local `CommandInputException`, process
termination via `sys.exit()` (recording how many times the
caller-supplied `call_before_exit` callback runs first), a returned
value, or a retry with an error message.  Terminal marking/printing is
not modelled.  Message strings that the Python code resolves before the
loop (default error messages, `%`-formatting) are taken as already
resolved parameters. -/

/-- The payload of `CommandInputException.__init__`: note that `args` is
`whole_input.split()`, the whitespace-split tokens of the whole line,
including the command token itself. -/
structure CommandInputException where
  command : List Char
  whole_input : List Char
  input_after_command : List Char
  args : List (List Char)
deriving DecidableEq, Repr

/-- Constructor logic of `CommandInputException`. -/
def mkCommandInputException (command whole_input : List Char) : CommandInputException :=
  { command := command,
    whole_input := whole_input,
    input_after_command :=
      if whole_input.length > command.length then whole_input.drop (command.length + 1)
      else [],
    args := pySplit whole_input }

/-- `_compare_input`. -/
def _compare_input (inp compare_to : List Char) (ignore_case : Bool) : Bool :=
  if ignore_case then pyLower inp = pyLower compare_to else inp = compare_to

/-- `_check_special_input`: first configured string the whole line
matches. -/
def _check_special_input (inp : List Char) (strs : List (List Char))
    (ignore_case : Bool) : Option (List Char) :=
  strs.find? (fun s => _compare_input inp s ignore_case)

/-- `_check_command_input`: compare the part of the line before its
first space character (`inp[:inp.index(' ')]`, the whole line when there
is no space) against the configured commands. -/
def _check_command_input (inp : List Char) (commands : List (List Char))
    (ignore_case : Bool) : Option (List Char) :=
  _check_special_input (inp.takeWhile (· ≠ ' ')) commands ignore_case

/-- `_input_int_in_range`. -/
def _input_int_in_range (inp_int : Int) (mn mx : Option Int) : Bool :=
  match mn, mx with
  | none, none => true
  | none, some mx => inp_int ≤ mx
  | some mn, none => mn ≤ inp_int
  | some mn, some mx => mn ≤ inp_int ∧ inp_int ≤ mx

/-- `_find_option_index`. -/
def _find_option_index (inp : List Char) (options : List (List Char))
    (ignore_case : Bool) : Option Nat :=
  options.findIdx? (fun o =>
    if ignore_case then pyLower inp = pyLower o else inp = o)

/-- `_fancyinput_dict_options_get_option`: first key (with its value and
index) the line matches. -/
def _fancyinput_dict_options_get_option {α : Type} (inp : List Char)
    (option_dict : List (List Char × α)) (ignore_case : Bool) :
    Option (List Char × α × Nat) :=
  (option_dict.enum.find? (fun kv =>
    (ignore_case && (pyLower inp = pyLower kv.2.1)) || inp = kv.2.1)).map
    (fun kv => (kv.2.1, kv.2.2, kv.1))

/-- Underscore-grouped digit sequence as accepted by Python `int` (no
leading/trailing/doubled underscore). -/
def noDoubleUnderscore : List Char → Bool
  | [] => true
  | [_] => true
  | c :: d :: rest => !(c = '_' ∧ d = '_') && noDoubleUnderscore (d :: rest)

def validUnderscoreDigits (u : List Char) : Bool :=
  !u.isEmpty && u.all (fun c => c.isDigit || c = '_') &&
  u.head? ≠ some '_' && u.getLast? ≠ some '_' && noDoubleUnderscore u

/-- Python `int(string)`: optional surrounding whitespace, optional
sign, then a non-empty underscore-grouped digit sequence. -/
def pyParseInt (s : List Char) : Option Int :=
  let t := ((s.dropWhile (fun c => isPySpace c)).reverse.dropWhile
    (fun c => isPySpace c)).reverse
  let signed : Int × List Char :=
    match t with
    | '+' :: rest => (1, rest)
    | '-' :: rest => (-1, rest)
    | _ => (1, t)
  if validUnderscoreDigits signed.2 then
    some (signed.1 * (digitsToNat (signed.2.filter (·.isDigit)) : Int))
  else none

/-- Outcome of one classify step of a prompt variant. -/
inductive StepOutcome (α : Type) where
  | raised (e : CommandInputException)
  | exited (cleanup_calls : Nat)
  | returned (v : α)
  | retry (error_msg_format : List Char)
deriving DecidableEq, Repr

/-- Classification step of `fancyinput` (free-text variant): command
check, exit-code check, then the optional validator. -/
def fancyinput_classify (commands exit_codes : List (List Char))
    (special_inputs_ignore_case : Bool) (has_cleanup : Bool)
    (validate_func : Option (List Char → Option (List Char)))
    (inp : List Char) : StepOutcome (List Char) :=
  match _check_command_input inp commands special_inputs_ignore_case with
  | some cmd => .raised (mkCommandInputException cmd inp)
  | none =>
  match _check_special_input inp exit_codes special_inputs_ignore_case with
  | some _ => .exited (if has_cleanup then 1 else 0)
  | none =>
  match validate_func with
  | none => .returned inp
  | some f =>
    match f inp with
    | none => .returned inp
    | some msg => .retry msg

/-- Classification step of `fancyinput_yn`: the `y`/`n` literal
comparisons come first, before the command and exit-code checks. -/
def fancyinput_yn_classify (y n : List Char) (ignore_case : Bool)
    (commands exit_codes : List (List Char)) (special_inputs_ignore_case : Bool)
    (has_cleanup : Bool) (invalid_input_msg_format : List Char)
    (inp : List Char) : StepOutcome Bool :=
  if _compare_input inp y ignore_case then .returned true
  else if _compare_input inp n ignore_case then .returned false
  else
    match _check_command_input inp commands special_inputs_ignore_case with
    | some cmd => .raised (mkCommandInputException cmd inp)
    | none =>
    match _check_special_input inp exit_codes special_inputs_ignore_case with
    | some _ => .exited (if has_cleanup then 1 else 0)
    | none => .retry invalid_input_msg_format

/-- Classification step of `fancyinput_int`: command check, exit-code
check, integer parse, range check, optional validator (a non-empty
validator message retries; Python tests the message for truthiness). -/
def fancyinput_int_classify (mn mx : Option Int)
    (validate_func : Option (Int → Option (List Char)))
    (commands exit_codes : List (List Char)) (special_inputs_ignore_case : Bool)
    (has_cleanup : Bool) (error_msg_not_an_int error_msg_int_out_of_range : List Char)
    (inp : List Char) : StepOutcome Int :=
  match _check_command_input inp commands special_inputs_ignore_case with
  | some cmd => .raised (mkCommandInputException cmd inp)
  | none =>
  match _check_special_input inp exit_codes special_inputs_ignore_case with
  | some _ => .exited (if has_cleanup then 1 else 0)
  | none =>
  match pyParseInt inp with
  | none => .retry error_msg_not_an_int
  | some inp_int =>
  if !_input_int_in_range inp_int mn mx then .retry error_msg_int_out_of_range
  else
    match validate_func with
    | none => .returned inp_int
    | some f =>
      match f inp_int with
      | none => .returned inp_int
      | some msg => if msg.isEmpty then .returned inp_int else .retry msg

/-- Replace every unescaped `'*'` in the unmatched-input message with
the input line (`replace('\\*', '\x11').replace('*', inp).replace('\x11',
'*')`). -/
def starReplace (msg inp : List Char) : List Char :=
  let fs := replace2 '\\' '*' BRACKETS_REPL_OPEN msg
  let fs := fs.flatMap (fun c => if c = '*' then inp else [c])
  replace1 BRACKETS_REPL_OPEN '*' fs

/-- Classification step of `fancyinput_dict_options`: command check,
exit-code check, key match, optional validator on the mapped value. -/
def fancyinput_dict_options_classify {α : Type} (option_dict : List (List Char × α))
    (ignore_case : Bool) (validate_func : Option (α → Option (List Char)))
    (commands exit_codes : List (List Char)) (special_inputs_ignore_case : Bool)
    (has_cleanup : Bool) (unmatched_input_msg_format : List Char)
    (inp : List Char) : StepOutcome α :=
  match _check_command_input inp commands special_inputs_ignore_case with
  | some cmd => .raised (mkCommandInputException cmd inp)
  | none =>
  match _check_special_input inp exit_codes special_inputs_ignore_case with
  | some _ => .exited (if has_cleanup then 1 else 0)
  | none =>
  match _fancyinput_dict_options_get_option inp option_dict ignore_case with
  | none => .retry (starReplace unmatched_input_msg_format inp)
  | some (_, option_value, _) =>
    match validate_func with
    | none => .returned option_value
    | some f =>
      match f option_value with
      | none => .returned option_value
      | some msg => if msg.isEmpty then .returned option_value else .retry msg

/-- Classification step of `fancyinput_options` (list variant): display
strings are markup-stripped before comparison; this variant has no
cleanup callback (`msg_on_exit` is printed instead), so its exit path
performs zero cleanup calls.  The returned value is
`return_options[option_index]`, modelled with `List.get?`. -/
def fancyinput_options_classify {α : Type} (option_formats : List (List Char))
    (return_options : List α) (ignore_case : Bool)
    (commands exit_codes : List (List Char)) (special_inputs_ignore_case : Bool)
    (error_msg_format : List Char) (inp : List Char) : StepOutcome (Option α) :=
  let options := option_formats.map remove_format_tags
  match _check_command_input inp commands special_inputs_ignore_case with
  | some cmd => .raised (mkCommandInputException cmd inp)
  | none =>
  match _check_special_input inp exit_codes special_inputs_ignore_case with
  | some _ => .exited 0
  | none =>
  match _find_option_index inp options ignore_case with
  | none => .retry error_msg_format
  | some i => .returned (return_options.get? i)

/-! ### Specification-side definitions

These definitions follow the wording of the specification / claims, not
the source; the theorems below compare them with the source-derived
definitions above. -/

/-- Marker characters of the tag grammar. -/
def tagMarkers : List Char := ['#', '!']

/-- A tag-content character recognized by the grammar according to the
claim: a key-alphabet letter, a digit, a marker, or a separator. -/
def claimValidChar (c : Char) : Bool :=
  c ∈ _ALL_KEY_LETTERS || c.isDigit || c ∈ tagMarkers || c ∈ tagSeparators

/-- Adjacent pairs of a list. -/
def adjPairs (l : List Char) : List (Char × Char) :=
  l.zip l.tail

/-- Maximal runs of consecutive digits in a list (helper `acc` holds the
current run in reverse). -/
def digitRunsAux : List Char → List Char → List (List Char)
  | [], acc => if acc.isEmpty then [] else [acc.reverse]
  | c :: rest, acc =>
    if c.isDigit then digitRunsAux rest (c :: acc)
    else if acc.isEmpty then digitRunsAux rest []
    else acc.reverse :: digitRunsAux rest []

def digitRuns (l : List Char) : List (List Char) :=
  digitRunsAux l []

/-- The failure condition stated by the original claim C2, literally:
tag text not wrapped in the delimiters; an unrecognized character; two
markers adjacent in either order; a marker immediately followed by a
separator or standing at end-of-content; a digit following a reset
marker; a maximal digit literal exceeding 255. -/
def claimedMalformedOrig (str_value : List Char) (ob cb : Char) : Bool :=
  !(str_value.head? == some ob && str_value.getLast? == some cb) ||
  (let content := (str_value.drop 1).dropLast
   content.any (fun c => !claimValidChar c) ||
   (adjPairs content).any (fun p => p.1 ∈ tagMarkers && p.2 ∈ tagMarkers) ||
   (adjPairs content).any (fun p => p.1 ∈ tagMarkers && p.2 ∈ tagSeparators) ||
   (match content.getLast? with
    | some c => c ∈ tagMarkers
    | none => false) ||
   (adjPairs content).any (fun p => p.1 = '!' && p.2.isDigit) ||
   (digitRuns content).any (fun r => digitsToNat r > 255))

/-- Does the (error-free) scan prefix `p` end in `'!'`?  Equivalently:
is the reset marker pending after `p`? -/
def endsBangb (p : List Char) : Bool :=
  p.getLast? == some '!'

/-- Does the prefix end in `'#'` (background marker pending with no open
numeric literal)? -/
def endsHashb (p : List Char) : Bool :=
  p.getLast? == some '#'

/-- The maximal digit run at the end of the prefix — the content of the
open numeric literal, if any. -/
def digitSuffix (p : List Char) : List Char :=
  (p.reverse.takeWhile (·.isDigit)).reverse

/-- Is the last non-digit character of the prefix `'#'`?  Equivalently:
is the background marker pending after `p` (possibly with an open
numeric literal following it)? -/
def lastNonDigitHashb (p : List Char) : Bool :=
  (p.reverse.dropWhile (·.isDigit)).head? == some '#'

/-- Does the prefix end in an open numeric literal whose value exceeds
255? -/
def bigLitb (p : List Char) : Bool :=
  !(digitSuffix p).isEmpty && digitsToNat (digitSuffix p) > 255

/-- Position-wise failure condition of the amended claim C2: processing
character `c` after the error-free prefix `p` fails exactly when

* `c` is a marker and the prefix ends in a reset marker, or in a
  background marker possibly followed by digits, or in an over-255
  literal;
* `c` is a separator and the prefix ends in a reset marker, an over-255
  literal, or a background marker;
* `c` is a digit and the prefix ends in a reset marker;
* `c` is a key letter and the prefix ends in an over-255 literal, or in
  a background marker with `c` not a color key, or in a reset marker
  with `c` not a reset key;
* `c` is not recognized at all. -/
def stepErrb (p : List Char) (c : Char) : Bool :=
  if c ∈ tagMarkers then endsBangb p || lastNonDigitHashb p || bigLitb p
  else if c ∈ tagSeparators then endsBangb p || bigLitb p || endsHashb p
  else if c.isDigit then endsBangb p
  else if c ∈ _ALL_KEY_LETTERS then
    bigLitb p || (endsHashb p && (_COLOR_MODES_FOR_FORMAT_CHARS c).isNone)
      || (endsBangb p && (_RESET_MODES_FOR_FORMAT_CHARS c).isNone)
  else true

/-- Any position of the content at which `stepErrb` fires. -/
def stepsErrAux : List Char → List Char → Bool
  | _, [] => false
  | p, c :: rest => stepErrb p c || stepsErrAux (p ++ [c]) rest

/-- End-of-content failure: the content ends in a dangling marker, or in
an open over-255 literal. -/
def endCondb (content : List Char) : Bool :=
  (content.getLast? == some '!' || content.getLast? == some '#') || bigLitb content

/-- The full (amended) malformedness condition for a tag text. -/
def tagMalformed (str_value : List Char) (ob cb : Char) : Bool :=
  !(str_value.head? == some ob && str_value.getLast? == some cb) ||
  (let content := (str_value.drop 1).dropLast
   stepsErrAux [] content || endCondb content)

/-- Rendering contract from the specification: the SGR codes of the
resets, then of the styles, then the background code, then the
foreground code. -/
def specCodes (a : TagAttrs) : List String :=
  a.resets.map (·.code) ++ a.styles.map (fun s => toString s.code)
    ++ (match a.bg_color with
        | none => []
        | some b => [_code_for_color_mode_or_num b true])
    ++ (match a.fg_color with
        | none => []
        | some f => [_code_for_color_mode_or_num f false])

/-- Rendering contract from the specification: the codes joined by `';'`
and wrapped as `ESC '[' codes 'm'`; the empty string when there are no
codes at all. -/
def specFullSequence (a : TagAttrs) : String :=
  if specCodes a = [] then ""
  else "\x1b[" ++ String.intercalate ";" (specCodes a) ++ "m"

/-- The language of properly paired tag delimiters at nesting depth at
most 1: a text is a sequence of non-delimiter characters and complete
`ob … cb` groups whose interior contains no delimiter. -/
inductive Depth1 (ob cb : Char) : List Char → Prop where
  | nil : Depth1 ob cb []
  | lit (c : Char) (rest : List Char) (hc : c ≠ ob ∧ c ≠ cb)
      (h : Depth1 ob cb rest) : Depth1 ob cb (c :: rest)
  | tag (content rest : List Char) (hc : ∀ c ∈ content, c ≠ ob ∧ c ≠ cb)
      (h : Depth1 ob cb rest) : Depth1 ob cb (ob :: content ++ cb :: rest)

/-- Decomposition of an open-tag suffix: some delimiter-free content, the
closing delimiter, and a balanced remainder. -/
def OpenOK (ob cb : Char) (t : List Char) : Prop :=
  ∃ content rest, t = content ++ cb :: rest ∧
    (∀ c ∈ content, c ≠ ob ∧ c ≠ cb) ∧ Depth1 ob cb rest

/-- The scanner-state invariant tying the state after an error-free scan
of `p` to the shape of `p`. -/
def ScanInv (p : List Char) (st : ScanSt) : Prop :=
  st.reset_marker = endsBangb p ∧
  st.bg_marker = lastNonDigitHashb p ∧
  st.n_256 = (if digitSuffix p = [] then none else some (digitSuffix p))

deriving instance DecidableEq for Except

set_option maxRecDepth 8000

/-! ### Theorems -/

/-- C10: compiling the format string `"<r>ERROR<!a>"` with the default
`<>` delimiters and the default mode table, with implicit resets
disabled, yields exactly `"\x1b[31mERROR\x1b[0m"`. -/
theorem fancyformat_red_error_literal :
    fancyformat "<r>ERROR<!a>".toList '<' '>' false false =
      .ok "\x1b[31mERROR\x1b[0m".toList := by
  rfl

/-- C5, counterexample: the reset-only key letter `'a'` is in the full
key alphabet and is not a style key, yet the foreground-color lookup
fails on it, so the fallback branch for an unmatched foreground key is
reachable (for instance by parsing the tag `"<a>"`, which succeeds and
silently drops the key). -/
theorem fg_fallback_unreachable_cx :
    'a' ∈ _ALL_KEY_LETTERS ∧
    _STYLE_MODES_FOR_FORMAT_CHARS 'a' = none ∧
    _COLOR_MODES_FOR_FORMAT_CHARS 'a' = none ∧
    _calc_mode_attrs "<a>".toList '<' '>' = .ok emptyAttrs := by
  refine ⟨by decide, by decide, by decide, by rfl⟩

/-- C5, amended: for every tag-content character of the full key
alphabet that is processed with neither marker pending and is not a
style key, the foreground lookup succeeds — except for the two letters
`'a'` and `'s'`, which occur in the alphabet only as reset keys; for
those the fallback branch is reached and the key is silently dropped
(the stored foreground becomes `None`). -/
theorem fg_fallback_only_for_reset_letters :
    ∀ c : Char, c ∈ _ALL_KEY_LETTERS → _STYLE_MODES_FOR_FORMAT_CHARS c = none →
      c ≠ 'a' → c ≠ 's' → (_COLOR_MODES_FOR_FORMAT_CHARS c).isSome = true := by
  intro c hc
  have e : _ALL_KEY_LETTERS =
      ['d', 'n', 'r', 'g', 'y', 'b', 'm', 'c', 'w', 'N', 'R', 'G', 'Y', 'B', 'M', 'C', 'W',
       'f', 'D', 'i', 'u', 'U', 'o', 'O', 'I', 'x', 'S', 'a', 's'] := by rfl
  rw [e] at hc
  fin_cases hc <;> decide

/-- Witness for `fg_fallback_only_for_reset_letters` at the key
`'d'`. -/
theorem fg_fallback_only_for_reset_letters_witness :
    (_COLOR_MODES_FOR_FORMAT_CHARS 'd').isSome = true :=
  fg_fallback_only_for_reset_letters 'd' (by decide) (by decide) (by decide) (by decide)

/-- C1, counterexample: with configured commands `["Y"]` and yes-literal
`"Y"`, the input line `"Y"` has a first token matching a configured
command, yet `fancyinput_yn` classifies it as a yes answer (returning
`True`), not as a command. -/
theorem yn_command_shadowed_cx :
    _check_command_input "Y".toList ["Y".toList] false = some "Y".toList ∧
    fancyinput_yn_classify "Y".toList "n".toList false ["Y".toList] [] false false []
      "Y".toList = .returned true ∧
    (StepOutcome.returned true : StepOutcome Bool) ≠
      .raised (mkCommandInputException "Y".toList "Y".toList) := by
  refine ⟨by decide, by rfl, by decide⟩

/-- C1, amended: in the free-text, integer, dict-options and
list-options prompt variants an input line is classified in the order
command match (on the part of the line before its first space) first,
then whole-line exit-code match, then variant-specific acceptance, the
first match winning: a command match is classified as a command
regardless of later stages, a line failing the command check but
matching an exit code is classified as an exit, and a line failing both
is decided by the variant-specific acceptance alone (it is returned or
retried, never treated as a command or exit).  In the yes/no variant the
two configured literals are compared first, and only a line matching
neither is checked against commands, then exit codes, then rejected. -/
theorem prompt_classification_order :
    (∀ (commands exit_codes : List (List Char)) (sic hc : Bool)
       (vf : Option (List Char → Option (List Char))) (inp cmd : List Char),
       _check_command_input inp commands sic = some cmd →
       fancyinput_classify commands exit_codes sic hc vf inp =
         .raised (mkCommandInputException cmd inp)) ∧
    (∀ (commands exit_codes : List (List Char)) (sic hc : Bool)
       (vf : Option (List Char → Option (List Char))) (inp e : List Char),
       _check_command_input inp commands sic = none →
       _check_special_input inp exit_codes sic = some e →
       fancyinput_classify commands exit_codes sic hc vf inp =
         .exited (if hc then 1 else 0)) ∧
    (∀ (commands exit_codes : List (List Char)) (sic hc : Bool)
       (vf : Option (List Char → Option (List Char))) (inp : List Char),
       _check_command_input inp commands sic = none →
       _check_special_input inp exit_codes sic = none →
       (∃ v, fancyinput_classify commands exit_codes sic hc vf inp = .returned v) ∨
       (∃ m, fancyinput_classify commands exit_codes sic hc vf inp = .retry m)) ∧
    (∀ (mn mx : Option Int) (vf : Option (Int → Option (List Char)))
       (commands exit_codes : List (List Char)) (sic hc : Bool)
       (m1 m2 : List Char) (inp cmd : List Char),
       _check_command_input inp commands sic = some cmd →
       fancyinput_int_classify mn mx vf commands exit_codes sic hc m1 m2 inp =
         .raised (mkCommandInputException cmd inp)) ∧
    (∀ (mn mx : Option Int) (vf : Option (Int → Option (List Char)))
       (commands exit_codes : List (List Char)) (sic hc : Bool)
       (m1 m2 : List Char) (inp e : List Char),
       _check_command_input inp commands sic = none →
       _check_special_input inp exit_codes sic = some e →
       fancyinput_int_classify mn mx vf commands exit_codes sic hc m1 m2 inp =
         .exited (if hc then 1 else 0)) ∧
    (∀ (mn mx : Option Int) (vf : Option (Int → Option (List Char)))
       (commands exit_codes : List (List Char)) (sic hc : Bool)
       (m1 m2 : List Char) (inp : List Char),
       _check_command_input inp commands sic = none →
       _check_special_input inp exit_codes sic = none →
       (∃ v, fancyinput_int_classify mn mx vf commands exit_codes sic hc m1 m2 inp =
          .returned v) ∨
       (∃ m, fancyinput_int_classify mn mx vf commands exit_codes sic hc m1 m2 inp =
          .retry m)) ∧
    (∀ (α : Type) (od : List (List Char × α)) (ic : Bool)
       (vf : Option (α → Option (List Char))) (commands exit_codes : List (List Char))
       (sic hc : Bool) (um : List Char) (inp cmd : List Char),
       _check_command_input inp commands sic = some cmd →
       fancyinput_dict_options_classify od ic vf commands exit_codes sic hc um inp =
         .raised (mkCommandInputException cmd inp)) ∧
    (∀ (α : Type) (od : List (List Char × α)) (ic : Bool)
       (vf : Option (α → Option (List Char))) (commands exit_codes : List (List Char))
       (sic hc : Bool) (um : List Char) (inp e : List Char),
       _check_command_input inp commands sic = none →
       _check_special_input inp exit_codes sic = some e →
       fancyinput_dict_options_classify od ic vf commands exit_codes sic hc um inp =
         .exited (if hc then 1 else 0)) ∧
    (∀ (α : Type) (od : List (List Char × α)) (ic : Bool)
       (vf : Option (α → Option (List Char))) (commands exit_codes : List (List Char))
       (sic hc : Bool) (um : List Char) (inp : List Char),
       _check_command_input inp commands sic = none →
       _check_special_input inp exit_codes sic = none →
       (∃ v, fancyinput_dict_options_classify od ic vf commands exit_codes sic hc um inp =
          .returned v) ∨
       (∃ m, fancyinput_dict_options_classify od ic vf commands exit_codes sic hc um inp =
          .retry m)) ∧
    (∀ (α : Type) (ofs : List (List Char)) (ro : List α) (ic : Bool)
       (commands exit_codes : List (List Char)) (sic : Bool) (em : List Char)
       (inp cmd : List Char),
       _check_command_input inp commands sic = some cmd →
       fancyinput_options_classify ofs ro ic commands exit_codes sic em inp =
         .raised (mkCommandInputException cmd inp)) ∧
    (∀ (α : Type) (ofs : List (List Char)) (ro : List α) (ic : Bool)
       (commands exit_codes : List (List Char)) (sic : Bool) (em : List Char)
       (inp e : List Char),
       _check_command_input inp commands sic = none →
       _check_special_input inp exit_codes sic = some e →
       fancyinput_options_classify ofs ro ic commands exit_codes sic em inp =
         .exited 0) ∧
    (∀ (α : Type) (ofs : List (List Char)) (ro : List α) (ic : Bool)
       (commands exit_codes : List (List Char)) (sic : Bool) (em : List Char)
       (inp : List Char),
       _check_command_input inp commands sic = none →
       _check_special_input inp exit_codes sic = none →
       (∃ v, fancyinput_options_classify ofs ro ic commands exit_codes sic em inp =
          .returned v) ∨
       (∃ m, fancyinput_options_classify ofs ro ic commands exit_codes sic em inp =
          .retry m)) ∧
    (∀ (y n : List Char) (ic : Bool) (commands exit_codes : List (List Char))
       (sic hc : Bool) (im : List Char) (inp : List Char),
       _compare_input inp y ic = true →
       fancyinput_yn_classify y n ic commands exit_codes sic hc im inp =
         .returned true) ∧
    (∀ (y n : List Char) (ic : Bool) (commands exit_codes : List (List Char))
       (sic hc : Bool) (im : List Char) (inp : List Char),
       _compare_input inp y ic = false → _compare_input inp n ic = true →
       fancyinput_yn_classify y n ic commands exit_codes sic hc im inp =
         .returned false) ∧
    (∀ (y n : List Char) (ic : Bool) (commands exit_codes : List (List Char))
       (sic hc : Bool) (im : List Char) (inp cmd : List Char),
       _compare_input inp y ic = false → _compare_input inp n ic = false →
       _check_command_input inp commands sic = some cmd →
       fancyinput_yn_classify y n ic commands exit_codes sic hc im inp =
         .raised (mkCommandInputException cmd inp)) ∧
    (∀ (y n : List Char) (ic : Bool) (commands exit_codes : List (List Char))
       (sic hc : Bool) (im : List Char) (inp e : List Char),
       _compare_input inp y ic = false → _compare_input inp n ic = false →
       _check_command_input inp commands sic = none →
       _check_special_input inp exit_codes sic = some e →
       fancyinput_yn_classify y n ic commands exit_codes sic hc im inp =
         .exited (if hc then 1 else 0)) := by
  refine ⟨?_, ?_, ?_, ?_, ?_, ?_, ?_, ?_, ?_, ?_, ?_, ?_, ?_, ?_, ?_, ?_⟩
  · intro commands exit_codes sic hc vf inp cmd h
    simp [fancyinput_classify, h]
  · intro commands exit_codes sic hc vf inp e h1 h2
    simp [fancyinput_classify, h1, h2]
  · intro commands exit_codes sic hc vf inp h1 h2
    simp only [fancyinput_classify, h1, h2]
    repeat' split
    all_goals first
      | exact Or.inl ⟨_, rfl⟩
      | exact Or.inr ⟨_, rfl⟩
  · intro mn mx vf commands exit_codes sic hc m1 m2 inp cmd h
    simp [fancyinput_int_classify, h]
  · intro mn mx vf commands exit_codes sic hc m1 m2 inp e h1 h2
    simp [fancyinput_int_classify, h1, h2]
  · intro mn mx vf commands exit_codes sic hc m1 m2 inp h1 h2
    simp only [fancyinput_int_classify, h1, h2]
    repeat' split
    all_goals first
      | exact Or.inl ⟨_, rfl⟩
      | exact Or.inr ⟨_, rfl⟩
  · intro α od ic vf commands exit_codes sic hc um inp cmd h
    simp [fancyinput_dict_options_classify, h]
  · intro α od ic vf commands exit_codes sic hc um inp e h1 h2
    simp [fancyinput_dict_options_classify, h1, h2]
  · intro α od ic vf commands exit_codes sic hc um inp h1 h2
    simp only [fancyinput_dict_options_classify, h1, h2]
    repeat' split
    all_goals first
      | exact Or.inl ⟨_, rfl⟩
      | exact Or.inr ⟨_, rfl⟩
  · intro α ofs ro ic commands exit_codes sic em inp cmd h
    simp [fancyinput_options_classify, h]
  · intro α ofs ro ic commands exit_codes sic em inp e h1 h2
    simp [fancyinput_options_classify, h1, h2]
  · intro α ofs ro ic commands exit_codes sic em inp h1 h2
    simp only [fancyinput_options_classify, h1, h2]
    repeat' split
    all_goals first
      | exact Or.inl ⟨_, rfl⟩
      | exact Or.inr ⟨_, rfl⟩
  · intro y n ic commands exit_codes sic hc im inp h
    simp [fancyinput_yn_classify, h]
  · intro y n ic commands exit_codes sic hc im inp h1 h2
    simp [fancyinput_yn_classify, h1, h2]
  · intro y n ic commands exit_codes sic hc im inp cmd h1 h2 h3
    simp [fancyinput_yn_classify, h1, h2, h3]
  · intro y n ic commands exit_codes sic hc im inp e h1 h2 h3 h4
    simp [fancyinput_yn_classify, h1, h2, h3, h4]

/-- Witness for `prompt_classification_order`: the free-text variant
classifies `"help me"` as the command `"help"` even though the whole
line also matches a configured exit code. -/
theorem prompt_classification_order_witness :
    fancyinput_classify ["help".toList] ["help me".toList] false false none
      "help me".toList = .raised (mkCommandInputException "help".toList "help me".toList) :=
  prompt_classification_order.1 ["help".toList] ["help me".toList] false false none
    "help me".toList "help".toList (by decide)

/-- C8, counterexample: for command `"help"` and input line `"help me"`,
the raised signal's `args` field is the whitespace-split token list of
the whole line, `["help", "me"]` — not the remaining arguments
`["me"]` the claim describes. -/
theorem command_args_cx :
    fancyinput_classify ["help".toList] [] false false none "help me".toList =
      .raised (mkCommandInputException "help".toList "help me".toList) ∧
    (mkCommandInputException "help".toList "help me".toList).args =
      ["help".toList, "me".toList] ∧
    ["help".toList, "me".toList] ≠ ["me".toList] := by
  refine ⟨by rfl, by decide, by decide⟩

/-- C8, amended: whenever the part of the line before its first space
(the whole line when it contains none) matches a configured command,
each prompt variant — the yes/no variant only when the line matches
neither configured literal — transfers control to its caller with a
`CommandInputException` carrying the matched command token, the whole
line, the raw remainder of the line after the command, and the
whitespace-split tokens of the *entire* line (the command token
included); the command is not consumed internally. -/
theorem command_signal_payload :
    (∀ (commands exit_codes : List (List Char)) (sic hc : Bool)
       (vf : Option (List Char → Option (List Char))) (inp cmd : List Char),
       _check_command_input inp commands sic = some cmd →
       ∃ e, fancyinput_classify commands exit_codes sic hc vf inp = .raised e ∧
         e.command = cmd ∧ e.whole_input = inp ∧ e.args = pySplit inp ∧
         e.input_after_command =
           (if inp.length > cmd.length then inp.drop (cmd.length + 1) else [])) ∧
    (∀ (mn mx : Option Int) (vf : Option (Int → Option (List Char)))
       (commands exit_codes : List (List Char)) (sic hc : Bool)
       (m1 m2 : List Char) (inp cmd : List Char),
       _check_command_input inp commands sic = some cmd →
       ∃ e, fancyinput_int_classify mn mx vf commands exit_codes sic hc m1 m2 inp =
         .raised e ∧ e.command = cmd ∧ e.args = pySplit inp) ∧
    (∀ (α : Type) (od : List (List Char × α)) (ic : Bool)
       (vf : Option (α → Option (List Char))) (commands exit_codes : List (List Char))
       (sic hc : Bool) (um : List Char) (inp cmd : List Char),
       _check_command_input inp commands sic = some cmd →
       ∃ e, fancyinput_dict_options_classify od ic vf commands exit_codes sic hc um inp =
         .raised e ∧ e.command = cmd ∧ e.args = pySplit inp) ∧
    (∀ (α : Type) (ofs : List (List Char)) (ro : List α) (ic : Bool)
       (commands exit_codes : List (List Char)) (sic : Bool) (em : List Char)
       (inp cmd : List Char),
       _check_command_input inp commands sic = some cmd →
       ∃ e, fancyinput_options_classify ofs ro ic commands exit_codes sic em inp =
         .raised e ∧ e.command = cmd ∧ e.args = pySplit inp) ∧
    (∀ (y n : List Char) (ic : Bool) (commands exit_codes : List (List Char))
       (sic hc : Bool) (im : List Char) (inp cmd : List Char),
       _compare_input inp y ic = false → _compare_input inp n ic = false →
       _check_command_input inp commands sic = some cmd →
       ∃ e, fancyinput_yn_classify y n ic commands exit_codes sic hc im inp =
         .raised e ∧ e.command = cmd ∧ e.args = pySplit inp) := by
  refine ⟨?_, ?_, ?_, ?_, ?_⟩
  · intro commands exit_codes sic hc vf inp cmd h
    exact ⟨mkCommandInputException cmd inp, by simp [fancyinput_classify, h],
      rfl, rfl, rfl, rfl⟩
  · intro mn mx vf commands exit_codes sic hc m1 m2 inp cmd h
    exact ⟨mkCommandInputException cmd inp, by simp [fancyinput_int_classify, h], rfl, rfl⟩
  · intro α od ic vf commands exit_codes sic hc um inp cmd h
    exact ⟨mkCommandInputException cmd inp,
      by simp [fancyinput_dict_options_classify, h], rfl, rfl⟩
  · intro α ofs ro ic commands exit_codes sic em inp cmd h
    exact ⟨mkCommandInputException cmd inp,
      by simp [fancyinput_options_classify, h], rfl, rfl⟩
  · intro y n ic commands exit_codes sic hc im inp cmd h1 h2 h3
    exact ⟨mkCommandInputException cmd inp,
      by simp [fancyinput_yn_classify, h1, h2, h3], rfl, rfl⟩

/-- Witness for `command_signal_payload` at command `"go"` and line
`"go north fast"`. -/
theorem command_signal_payload_witness :
    ∃ e, fancyinput_classify ["go".toList] [] false false none "go north fast".toList =
      .raised e ∧ e.command = "go".toList ∧ e.whole_input = "go north fast".toList ∧
      e.args = pySplit "go north fast".toList ∧
      e.input_after_command =
        (if "go north fast".toList.length > "go".toList.length then
          "go north fast".toList.drop ("go".toList.length + 1) else []) :=
  command_signal_payload.1 ["go".toList] [] false false none "go north fast".toList
    "go".toList (by decide)

/-- C9, counterexample: in the yes/no variant with yes-literal `"q"` and
configured exit codes `["q"]`, the input line `"q"` matches a configured
exit code, yet the prompt returns `True` to its caller — the cleanup
callback does not run and the process does not terminate. -/
theorem exit_code_shadowed_cx :
    _check_special_input "q".toList ["q".toList] false = some "q".toList ∧
    fancyinput_yn_classify "q".toList "n".toList false [] ["q".toList] false true []
      "q".toList = .returned true ∧
    (StepOutcome.returned true : StepOutcome Bool) ≠ .exited 1 := by
  refine ⟨by decide, by rfl, by decide⟩

/-- C9, amended: whenever a prompt variant *classifies* the input line
as an exit code (the line matches a configured exit string and no
higher-precedence classification — command, or in the yes/no variant one
of the two literals — matched first), the caller-supplied cleanup
callback runs exactly once when one is configured (zero times
otherwise) and the process then terminates via `sys.exit()`, never
returning a value to the caller of the prompt. -/
theorem exit_classification_cleanup_once :
    (∀ (commands exit_codes : List (List Char)) (sic hc : Bool)
       (vf : Option (List Char → Option (List Char))) (inp e : List Char),
       _check_command_input inp commands sic = none →
       _check_special_input inp exit_codes sic = some e →
       fancyinput_classify commands exit_codes sic hc vf inp =
         .exited (if hc then 1 else 0)) ∧
    (∀ (mn mx : Option Int) (vf : Option (Int → Option (List Char)))
       (commands exit_codes : List (List Char)) (sic hc : Bool)
       (m1 m2 : List Char) (inp e : List Char),
       _check_command_input inp commands sic = none →
       _check_special_input inp exit_codes sic = some e →
       fancyinput_int_classify mn mx vf commands exit_codes sic hc m1 m2 inp =
         .exited (if hc then 1 else 0)) ∧
    (∀ (α : Type) (od : List (List Char × α)) (ic : Bool)
       (vf : Option (α → Option (List Char))) (commands exit_codes : List (List Char))
       (sic hc : Bool) (um : List Char) (inp e : List Char),
       _check_command_input inp commands sic = none →
       _check_special_input inp exit_codes sic = some e →
       fancyinput_dict_options_classify od ic vf commands exit_codes sic hc um inp =
         .exited (if hc then 1 else 0)) ∧
    (∀ (y n : List Char) (ic : Bool) (commands exit_codes : List (List Char))
       (sic hc : Bool) (im : List Char) (inp e : List Char),
       _compare_input inp y ic = false → _compare_input inp n ic = false →
       _check_command_input inp commands sic = none →
       _check_special_input inp exit_codes sic = some e →
       fancyinput_yn_classify y n ic commands exit_codes sic hc im inp =
         .exited (if hc then 1 else 0)) ∧
    (∀ (hc : Bool) (v : Int), (StepOutcome.exited (if hc then 1 else 0) : StepOutcome Int)
       ≠ .returned v) := by
  refine ⟨?_, ?_, ?_, ?_, ?_⟩
  · intro commands exit_codes sic hc vf inp e h1 h2
    simp [fancyinput_classify, h1, h2]
  · intro mn mx vf commands exit_codes sic hc m1 m2 inp e h1 h2
    simp [fancyinput_int_classify, h1, h2]
  · intro α od ic vf commands exit_codes sic hc um inp e h1 h2
    simp [fancyinput_dict_options_classify, h1, h2]
  · intro y n ic commands exit_codes sic hc im inp e h1 h2 h3 h4
    simp [fancyinput_yn_classify, h1, h2, h3, h4]
  · intro hc v h
    cases h

/-- Witness for `exit_classification_cleanup_once`: the free-text
variant with a configured cleanup callback runs it once on the
exit code `"quit"`. -/
theorem exit_classification_cleanup_once_witness :
    fancyinput_classify [] ["quit".toList] false true none "quit".toList = .exited 1 :=
  exit_classification_cleanup_once.1 [] ["quit".toList] false true none "quit".toList
    "quit".toList (by decide) (by decide)

/-! ### Helper lemmas about the scanner -/

theorem except_bind_ok {ε α β : Type} {x : Except ε α} {g : α → Except ε β} {b : β}
    (h : (x >>= g) = .ok b) : ∃ a, x = .ok a ∧ g a = .ok b := by
  cases x with
  | error e =>
    simp only [Bind.bind, Except.bind] at h
    exact Except.noConfusion h
  | ok a => exact ⟨a, rfl, by simpa [Bind.bind, Except.bind] using h⟩

theorem scanStep_eq_hash (st : ScanSt) : scanStep st '#' =
    if st.reset_marker then .error (.invalid_key "!#")
    else if st.bg_marker then .error (.invalid_key "##")
    else do
      let s ← set_n_256_color st
      return { s with bg_marker := true } := rfl

theorem scanStep_eq_bang (st : ScanSt) : scanStep st '!' =
    if st.reset_marker then .error (.invalid_key "!!")
    else if st.bg_marker then .error (.invalid_key "#!")
    else do
      let s ← set_n_256_color st
      return { s with reset_marker := true } := rfl

theorem scanStep_eq_sep {c : Char} (h1 : c ≠ '#') (h2 : c ≠ '!')
    (h3 : c ∈ tagSeparators) (st : ScanSt) : scanStep st c =
    if st.reset_marker then .error (.invalid_key (String.mk ['!', c]))
    else do
      let s ← set_n_256_color st
      if s.bg_marker then .error (.invalid_key (String.mk ['#', c]))
      else return s := by
  simp only [scanStep, if_neg h1, if_neg h2, if_pos h3]

theorem scanStep_eq_digit {c : Char} (h1 : c ≠ '#') (h2 : c ≠ '!')
    (h3 : c ∉ tagSeparators) (h4 : c.isDigit = true) (st : ScanSt) : scanStep st c =
    if st.reset_marker then .error (.invalid_key (String.mk ['!', c]))
    else .ok { st with n_256 := some (st.n_256.getD [] ++ [c]) } := by
  simp only [scanStep, if_neg h1, if_neg h2, if_neg h3, if_pos h4]

theorem scanStep_eq_other {c : Char} (h1 : c ≠ '#') (h2 : c ≠ '!')
    (h3 : c ∉ tagSeparators) (h4 : ¬c.isDigit = true) (st : ScanSt) : scanStep st c =
    (if c ∉ _ALL_KEY_LETTERS then .error (.invalid_key (String.mk [c]))
    else do
      let s ← set_n_256_color st
      if s.bg_marker then
        match _COLOR_MODES_FOR_FORMAT_CHARS c with
        | none => .error (.invalid_key (String.mk ['#', c]))
        | some m => return { s with bg_color := some (.mode m), bg_marker := false }
      else if s.reset_marker then
        match _RESET_MODES_FOR_FORMAT_CHARS c with
        | none => .error .type_error
        | some rm =>
          return { s with resets := _append_if_not_in_list s.resets rm,
                          reset_marker := false }
      else
        match _STYLE_MODES_FOR_FORMAT_CHARS c with
        | none =>
          return { s with fg_color := (_COLOR_MODES_FOR_FORMAT_CHARS c).map .mode }
        | some style =>
          return { s with styles := _append_if_not_in_list s.styles style,
                          resets_of_styles :=
                            _append_if_not_in_list s.resets_of_styles style.reset_mode }) := by
  simp only [scanStep, if_neg h1, if_neg h2, if_neg h3, if_neg h4]

theorem set_n_256_color_none {st : ScanSt} (h : st.n_256 = none) :
    set_n_256_color st = .ok st := by
  simp [set_n_256_color, h]

theorem set_n_256_color_some {st : ScanSt} {ds : List Char} (h : st.n_256 = some ds) :
    set_n_256_color st =
      if digitsToNat ds > 255 then .error (.invalid_key (String.mk ds))
      else .ok { st with
        fg_color := if st.bg_marker then st.fg_color else some (.num (digitsToNat ds)),
        bg_color := if st.bg_marker then some (.num (digitsToNat ds)) else st.bg_color,
        n_256 := none,
        bg_marker := false } := by
  simp [set_n_256_color, h]

theorem set_n_256_color_fields {st st' : ScanSt} (h : set_n_256_color st = .ok st') :
    st'.resets = st.resets ∧ st'.styles = st.styles ∧
      st'.resets_of_styles = st.resets_of_styles ∧ st'.reset_marker = st.reset_marker := by
  rcases hn : st.n_256 with _ | ds
  · rw [set_n_256_color_none hn] at h
    cases h
    exact ⟨rfl, rfl, rfl, rfl⟩
  · rw [set_n_256_color_some hn] at h
    split at h
    · exact Except.noConfusion h
    · cases h
      exact ⟨rfl, rfl, rfl, rfl⟩

theorem append_if_not_in_nodup {α : Type} [DecidableEq α] {l : List α} (v : α)
    (h : l.Nodup) : (_append_if_not_in_list l v).Nodup := by
  unfold _append_if_not_in_list
  split
  · exact h
  · simpa [List.nodup_append] using ⟨h, by assumption⟩

theorem scanStep_nodup {st st' : ScanSt} {c : Char} (h : scanStep st c = .ok st')
    (h1 : st.resets.Nodup) (h2 : st.styles.Nodup) :
    st'.resets.Nodup ∧ st'.styles.Nodup := by
  by_cases hc1 : c = '#'
  · subst hc1
    rw [scanStep_eq_hash] at h
    split_ifs at h
    obtain ⟨sm, hsm, hret⟩ := except_bind_ok h
    obtain ⟨hr, hy, -, -⟩ := set_n_256_color_fields hsm
    cases hret
    exact ⟨hr ▸ h1, hy ▸ h2⟩
  by_cases hc2 : c = '!'
  · subst hc2
    rw [scanStep_eq_bang] at h
    split_ifs at h
    obtain ⟨sm, hsm, hret⟩ := except_bind_ok h
    obtain ⟨hr, hy, -, -⟩ := set_n_256_color_fields hsm
    cases hret
    exact ⟨hr ▸ h1, hy ▸ h2⟩
  by_cases hc3 : c ∈ tagSeparators
  · rw [scanStep_eq_sep hc1 hc2 hc3] at h
    split_ifs at h
    obtain ⟨sm, hsm, hret⟩ := except_bind_ok h
    obtain ⟨hr, hy, -, -⟩ := set_n_256_color_fields hsm
    split_ifs at hret
    cases hret
    exact ⟨hr ▸ h1, hy ▸ h2⟩
  by_cases hc4 : c.isDigit
  · rw [scanStep_eq_digit hc1 hc2 hc3 hc4] at h
    split_ifs at h
    cases h
    exact ⟨h1, h2⟩
  · rw [scanStep_eq_other hc1 hc2 hc3 hc4] at h
    split_ifs at h with hmem
    obtain ⟨sm, hsm, hret⟩ := except_bind_ok h
    obtain ⟨hr, hy, -, -⟩ := set_n_256_color_fields hsm
    split_ifs at hret
    · split at hret
      · exact Except.noConfusion hret
      · cases hret
        exact ⟨hr ▸ h1, hy ▸ h2⟩
    · split at hret
      · exact Except.noConfusion hret
      · cases hret
        exact ⟨(hr ▸ append_if_not_in_nodup _ h1 : _), hy ▸ h2⟩
    · split at hret
      · cases hret
        exact ⟨hr ▸ h1, hy ▸ h2⟩
      · cases hret
        exact ⟨hr ▸ h1, (hy ▸ append_if_not_in_nodup _ h2 : _)⟩

theorem scanList_nodup {cs : List Char} : ∀ {st st' : ScanSt},
    scanList st cs = .ok st' → st.resets.Nodup → st.styles.Nodup →
    st'.resets.Nodup ∧ st'.styles.Nodup := by
  induction cs with
  | nil =>
    intro st st' h h1 h2
    cases h
    exact ⟨h1, h2⟩
  | cons c rest ih =>
    intro st st' h h1 h2
    obtain ⟨sm, hsm, hrest⟩ := except_bind_ok h
    obtain ⟨g1, g2⟩ := scanStep_nodup hsm h1 h2
    exact ih hrest g1 g2

theorem code_list_eq_specCodes (a : TagAttrs) :
    _code_list a.resets a.fg_color a.bg_color a.styles = specCodes a := by
  simp [_code_list, specCodes, List.append_assoc]

/-- C3: for every successfully parsed tag, the full escape sequence
consists of the SGR codes of its resets, then its styles, then its
background color, then its foreground color, joined by `';'` and wrapped
as `ESC '[' codes 'm'` (the specification-side rendering
`specFullSequence`); the reset and style lists carry no duplicates
(keys are collected in first-occurrence order through
`_append_if_not_in_list`); and a tag contributing no codes — in
particular the empty tag `"<>"` — renders to the empty string, not to an
empty bracketed escape. -/
theorem full_escseq_spec_order :
    (∀ (s : List Char) (ob cb : Char) (a : TagAttrs),
        _calc_mode_attrs s ob cb = .ok a →
        a.full_escseq = specFullSequence a ∧ a.resets.Nodup ∧ a.styles.Nodup) ∧
    _calc_mode_attrs "<>".toList '<' '>' = .ok emptyAttrs ∧
    emptyAttrs.full_escseq = "" := by
  refine ⟨?_, by rfl, by rfl⟩
  intro s ob cb a h
  constructor
  · simp [TagAttrs.full_escseq, escseq, specFullSequence, code_list_eq_specCodes,
      List.isEmpty_iff]
  · simp only [_calc_mode_attrs] at h
    split_ifs at h with hw he hm
    · cases h
      exact ⟨List.nodup_nil, List.nodup_nil⟩
    · obtain ⟨st1, hscan, h2⟩ := except_bind_ok h
      exact Except.noConfusion h2
    · obtain ⟨st1, hscan, h2⟩ := except_bind_ok h
      have hnod := scanList_nodup hscan (by simp [initSt]) (by simp [initSt])
      obtain ⟨st2, hfin, h3⟩ := except_bind_ok h2
      obtain ⟨hr, hy, -, -⟩ := set_n_256_color_fields hfin
      cases h3
      exact ⟨by simpa [ScanSt.toAttrs, hr] using hnod.1,
        by simpa [ScanSt.toAttrs, hy] using hnod.2⟩

/-- Witness for `full_escseq_spec_order` at the tag `"<fU,c>"` (bold,
double underline, cyan foreground). -/
theorem full_escseq_spec_order_witness :
    (⟨[], [BOLD, DOUBLE_UNDERLINE], none, some (.mode CYAN),
      [RESET_BOLD_DIM, RESET_UNDERLINE]⟩ : TagAttrs).full_escseq =
      specFullSequence ⟨[], [BOLD, DOUBLE_UNDERLINE], none, some (.mode CYAN),
        [RESET_BOLD_DIM, RESET_UNDERLINE]⟩ ∧
    ([] : List ResetMode).Nodup ∧ [BOLD, DOUBLE_UNDERLINE].Nodup :=
  full_escseq_spec_order.1 "<fU,c>".toList '<' '>'
    ⟨[], [BOLD, DOUBLE_UNDERLINE], none, some (.mode CYAN),
      [RESET_BOLD_DIM, RESET_UNDERLINE]⟩ (by decide)

theorem replace2_id {a b r : Char} : ∀ {s : List Char}, b ∉ s → replace2 a b r s = s
  | [], _ => rfl
  | [c], _ => rfl
  | c :: d :: rest, h => by
    have hd : ¬(c = a ∧ d = b) := by
      rintro ⟨-, rfl⟩
      exact h (List.mem_cons_of_mem _ (List.mem_cons_self _ _))
    rw [replace2, if_neg hd, replace2_id (fun hm => h (List.mem_cons_of_mem _ hm))]

theorem replace1_id {a b : Char} {s : List Char} (h : a ∉ s) : replace1 a b s = s := by
  induction s with
  | nil => rfl
  | cons c rest ih =>
    have hc : c ≠ a := fun hh => h (hh ▸ List.mem_cons_self c rest)
    simp only [replace1, List.map_cons, if_neg hc]
    rw [show List.map (fun c => if c = a then b else c) rest = replace1 a b rest from rfl,
      ih (fun hm => h (List.mem_cons_of_mem _ hm))]

theorem replace1_append (a b : Char) (u v : List Char) :
    replace1 a b (u ++ v) = replace1 a b u ++ replace1 a b v := by
  simp [replace1]

theorem checkBracketsLoop_ok {ob cb : Char} :
    ∀ (t : List Char) (i obi : Nat), (∀ c ∈ t, c ≠ ob ∧ c ≠ cb) →
      checkBracketsLoop ob cb t i obi false = .ok ()
  | [], _, _, _ => rfl
  | c :: rest, i, obi, h => by
    obtain ⟨hc1, hc2⟩ := h c (List.mem_cons_self _ _)
    rw [checkBracketsLoop, if_neg hc1, if_neg hc2]
    exact checkBracketsLoop_ok rest (i + 1) obi (fun d hd => h d (List.mem_cons_of_mem _ hd))

theorem splitTagsAux_no_ob {ob cb : Char} {m : Bool} :
    ∀ {t : List Char} (part : List Char), (∀ c ∈ t, c ≠ ob) →
      splitTagsAux ob cb m t part none = ([part.reverse ++ t], [])
  | [], part, _ => by simp [splitTagsAux]
  | c :: rest, part, h => by
    rw [splitTagsAux, if_neg (h c (List.mem_cons_self _ _)),
      splitTagsAux_no_ob (c :: part) (fun d hd => h d (List.mem_cons_of_mem _ hd))]
    simp

theorem splitTagsAux_append_free {ob cb : Char} {m : Bool} :
    ∀ {t : List Char} (rest part : List Char), (∀ c ∈ t, c ≠ ob) →
      splitTagsAux ob cb m (t ++ rest) part none =
        splitTagsAux ob cb m rest (t.reverse ++ part) none
  | [], rest, part, _ => by simp
  | c :: t', rest, part, h => by
    rw [List.cons_append, splitTagsAux, if_neg (h c (List.mem_cons_self _ _)),
      splitTagsAux_append_free rest (c :: part) (fun d hd => h d (List.mem_cons_of_mem _ hd))]
    simp

/-- C7, counterexample: the text `"a\\<b"` contains no tag (it contains
no closing delimiter at all), yet compiling it with both implicit-reset
flags off returns `"a<b"`, not the text unchanged: the backslash escape
before the delimiter is consumed. -/
theorem fancyformat_no_tags_cx :
    fancyformat "a\\<b".toList '<' '>' false false = .ok "a<b".toList ∧
    "a<b".toList ≠ "a\\<b".toList ∧ '>' ∉ "a\\<b".toList := by
  refine ⟨by rfl, by decide, by decide⟩

/-- C7, amended: for every input text containing no tag delimiters, no
backslash-escaped delimiters and no sentinel characters, the
format-string compiler (with the default `<>` delimiters) returns the
text unchanged when both implicit-reset flags are off; switching on the
start / end flag prepends / appends the reset-all escape sequence
`"\x1b[0m"`. -/
theorem fancyformat_plain_text (text : List Char)
    (h1 : '<' ∉ text) (h2 : '>' ∉ text)
    (h3 : BRACKETS_REPL_OPEN ∉ text) (h4 : BRACKETS_REPL_CLOSED ∉ text) :
    fancyformat text '<' '>' false false = .ok text ∧
    fancyformat text '<' '>' true false = .ok ("\x1b[0m".toList ++ text) ∧
    fancyformat text '<' '>' false true = .ok (text ++ "\x1b[0m".toList) ∧
    fancyformat text '<' '>' true true =
      .ok ("\x1b[0m".toList ++ text ++ "\x1b[0m".toList) := by
  have e1 : replace2 '\\' '<' BRACKETS_REPL_OPEN text = text := replace2_id h1
  have e2 : replace2 '\\' '>' BRACKETS_REPL_CLOSED text = text := replace2_id h2
  have echk : _check_brackets_match text '<' '>' = .ok () :=
    checkBracketsLoop_ok text 0 0 (fun c hc =>
      ⟨fun hh => h1 (hh ▸ hc), fun hh => h2 (hh ▸ hc)⟩)
  have hfree : ∀ c ∈ text, c ≠ '<' := fun c hc hh => h1 (hh ▸ hc)
  have esplit : splitTags '<' '>' false text = ([text], []) := by
    simpa using @splitTagsAux_no_ob '<' '>' false text [] hfree
  have esplit2 : splitTags '<' '>' false ('<' :: '!' :: 'a' :: '>' :: text) =
      ([[], text], [['<', '!', 'a', '>']]) := by
    simp [splitTags, splitTagsAux, splitTagsAux_no_ob [] hfree]
  have esplit3 : splitTags '<' '>' false (text ++ ['<', '!', 'a', '>']) =
      ([text, []], [['<', '!', 'a', '>']]) := by
    simp [splitTags, splitTagsAux_append_free ['<', '!', 'a', '>'] [] hfree, splitTagsAux]
  have esplit4 : splitTags '<' '>' false
      ('<' :: '!' :: 'a' :: '>' :: (text ++ ['<', '!', 'a', '>'])) =
      ([[], text, []], [['<', '!', 'a', '>'], ['<', '!', 'a', '>']]) := by
    simp [splitTags, splitTagsAux, splitTagsAux_append_free ['<', '!', 'a', '>'] [] hfree]
  have hct0 : compileTags '<' '>' [] = .ok [] := rfl
  have hct1 : compileTags '<' '>' [['<', '!', 'a', '>']] = .ok ["\x1b[0m".toList] := rfl
  have hct2 : compileTags '<' '>' [['<', '!', 'a', '>'], ['<', '!', 'a', '>']] =
      .ok ["\x1b[0m".toList, "\x1b[0m".toList] := rfl
  have hesc1 : replace1 BRACKETS_REPL_OPEN '<' "\x1b[0m".toList = "\x1b[0m".toList := by
    decide
  have hesc2 : replace1 BRACKETS_REPL_CLOSED '>' "\x1b[0m".toList = "\x1b[0m".toList := by
    decide
  have hu2 : interleaveParts [[], text] ["\x1b[0m".toList] = "\x1b[0m".toList ++ text := by
    simp [interleaveParts]
  have hu3 : interleaveParts [text, []] ["\x1b[0m".toList] = text ++ "\x1b[0m".toList := by
    simp [interleaveParts]
  have hu4 : interleaveParts [[], text, []] ["\x1b[0m".toList, "\x1b[0m".toList] =
      "\x1b[0m".toList ++ (text ++ "\x1b[0m".toList) := by
    simp [interleaveParts]
  refine ⟨?_, ?_, ?_, ?_⟩
  · simp only [fancyformat, e1, e2, echk, _place_reset_all_tags, Bool.false_eq_true,
      if_false, esplit, hct0]
    simp only [interleaveParts, replace1_id h3, replace1_id h4]
  · simp only [fancyformat, e1, e2, echk, _place_reset_all_tags, Bool.false_eq_true,
      if_false, if_true, esplit2, hct1, hu2]
    simp only [replace1_append, hesc1, hesc2, replace1_id h3, replace1_id h4,
      List.append_assoc]
  · simp only [fancyformat, e1, e2, echk, _place_reset_all_tags, Bool.false_eq_true,
      if_false, if_true, esplit3, hct1, hu3]
    simp only [replace1_append, hesc1, hesc2, replace1_id h3, replace1_id h4,
      List.append_assoc]
  · simp only [fancyformat, e1, e2, echk, _place_reset_all_tags, Bool.false_eq_true,
      if_false, if_true, List.cons_append, esplit4, hct2, hu4]
    simp only [replace1_append, hesc1, hesc2, replace1_id h3, replace1_id h4,
      List.append_assoc]

/-- Witness for `fancyformat_plain_text` at the text `"hi"`. -/
theorem fancyformat_plain_text_witness :
    fancyformat "hi".toList '<' '>' false false = .ok "hi".toList ∧
    fancyformat "hi".toList '<' '>' true false = .ok ("\x1b[0m".toList ++ "hi".toList) ∧
    fancyformat "hi".toList '<' '>' false true = .ok ("hi".toList ++ "\x1b[0m".toList) ∧
    fancyformat "hi".toList '<' '>' true true =
      .ok ("\x1b[0m".toList ++ "hi".toList ++ "\x1b[0m".toList) :=
  fancyformat_plain_text "hi".toList (by decide) (by decide) (by decide) (by decide)

theorem scanList_append (a b : List Char) : ∀ (st : ScanSt),
    scanList st (a ++ b) = scanList st a >>= fun s => scanList s b := by
  induction a with
  | nil =>
    intro st
    simp [scanList, Bind.bind, Except.bind]
  | cons c rest ih =>
    intro st
    simp only [List.cons_append, scanList]
    cases scanStep st c with
    | error e => simp [Bind.bind, Except.bind]
    | ok st1 => simp [Bind.bind, Except.bind, ih st1]

theorem digit_not_special {d : Char} (hd : d.isDigit = true) :
    d ≠ '#' ∧ d ≠ '!' ∧ d ∉ tagSeparators := by
  refine ⟨fun h => ?_, fun h => ?_, fun h => ?_⟩
  · rw [h] at hd
    exact absurd hd (by decide)
  · rw [h] at hd
    exact absurd hd (by decide)
  · simp only [tagSeparators, List.mem_cons, List.not_mem_nil, or_false] at h
    rcases h with rfl | rfl | rfl | rfl <;> exact absurd hd (by decide)

theorem scanDigits : ∀ (ds : List Char), ds ≠ [] → (∀ c ∈ ds, c.isDigit = true) →
    ∀ (st : ScanSt), st.reset_marker = false →
    scanList st ds = .ok { st with n_256 := some (st.n_256.getD [] ++ ds) }
  | [], h, _, _, _ => absurd rfl h
  | d :: rest, _, hdig, st, hrm => by
    have hd := hdig d (List.mem_cons_self _ _)
    obtain ⟨h1, h2, h3⟩ := digit_not_special hd
    have hstep : scanStep st d = .ok { st with n_256 := some (st.n_256.getD [] ++ [d]) } := by
      rw [scanStep_eq_digit h1 h2 h3 hd st, if_neg]
      simp [hrm]
    rcases rest with _ | ⟨e, rest'⟩
    · simp [scanList, hstep, Bind.bind, Except.bind]
    · rw [scanList, hstep]
      simp only [Bind.bind, Except.bind]
      rw [scanDigits (e :: rest') (by simp)
        (fun c hc => hdig c (List.mem_cons_of_mem _ hc))
        { st with n_256 := some (st.n_256.getD [] ++ [d]) } hrm]
      simp [List.append_assoc]

/-- C6: whenever a 256-color numeric literal is finalized during tag
parsing, its value goes to the background slot if the background marker
is pending and to the foreground slot otherwise, overwriting any color
previously assigned there (first conjunct, `set_n_256_color`, which
every finalizing branch of the scanner calls); digit steps extend the
open literal and leave the background-marker flag untouched, so the flag
at finalization equals the flag when the literal started (second
conjunct); and a literal still open at end-of-content is finalized with
the last flag states: parsing a tag whose content ends in an open digit
run assigns its value to the slot selected by the final
background-marker state, overwriting that slot (third conjunct). -/
theorem n256_finalization :
    (∀ (st : ScanSt) (ds : List Char), st.n_256 = some ds → digitsToNat ds ≤ 255 →
       set_n_256_color st = .ok { st with
         fg_color := if st.bg_marker then st.fg_color else some (.num (digitsToNat ds)),
         bg_color := if st.bg_marker then some (.num (digitsToNat ds)) else st.bg_color,
         n_256 := none, bg_marker := false }) ∧
    (∀ (st : ScanSt) (c : Char), c.isDigit = true → st.reset_marker = false →
       scanStep st c = .ok { st with n_256 := some (st.n_256.getD [] ++ [c]) }) ∧
    (∀ (ob cb : Char) (cs ds : List Char) (st : ScanSt),
       scanList initSt cs = .ok st → st.n_256 = none → st.reset_marker = false →
       ds ≠ [] → (∀ c ∈ ds, c.isDigit = true) → digitsToNat ds ≤ 255 →
       _calc_mode_attrs (ob :: (cs ++ ds ++ [cb])) ob cb = .ok
         { resets := st.resets, styles := st.styles,
           bg_color := if st.bg_marker then some (.num (digitsToNat ds)) else st.bg_color,
           fg_color := if st.bg_marker then st.fg_color else some (.num (digitsToNat ds)),
           resets_of_styles := st.resets_of_styles }) := by
  have fin1 : ∀ (st : ScanSt) (ds : List Char), st.n_256 = some ds →
      digitsToNat ds ≤ 255 →
      set_n_256_color st = .ok { st with
        fg_color := if st.bg_marker then st.fg_color else some (.num (digitsToNat ds)),
        bg_color := if st.bg_marker then some (.num (digitsToNat ds)) else st.bg_color,
        n_256 := none, bg_marker := false } := by
    intro st ds hn hle
    rw [set_n_256_color_some hn, if_neg]
    omega
  refine ⟨fin1, ?_, ?_⟩
  · intro st c hc hrm
    obtain ⟨h1, h2, h3⟩ := digit_not_special hc
    rw [scanStep_eq_digit h1 h2 h3 hc st, if_neg]
    simp [hrm]
  · intro ob cb cs ds st hscan hn hrm hne hdig hle
    have hP : (ob :: (cs ++ ds ++ [cb])).head? = some ob ∧
        (ob :: (cs ++ ds ++ [cb])).getLast? = some cb := by
      refine ⟨rfl, ?_⟩
      rw [show ob :: (cs ++ ds ++ [cb]) = [ob] ++ (cs ++ (ds ++ [cb])) by simp,
        List.getLast?_append_of_ne_nil _ (by simp),
        List.getLast?_append_of_ne_nil _ (by simp),
        List.getLast?_append_of_ne_nil _ (by simp)]
      rfl
    have hcontent : ((ob :: (cs ++ ds ++ [cb])).drop 1).dropLast = cs ++ ds := by
      rw [show ob :: (cs ++ ds ++ [cb]) = (ob :: ((cs ++ ds) ++ [cb])) by simp]
      simp [List.dropLast_concat]
    have hsc : scanList initSt (cs ++ ds) = .ok { st with n_256 := some ds } := by
      rw [scanList_append, hscan]
      simp only [Bind.bind, Except.bind]
      rw [scanDigits ds hne hdig st hrm]
      simp [hn]
    have hd : ∃ d, ds.getLast? = some d ∧ d.isDigit = true := by
      refine ⟨ds.getLast hne, List.getLast?_eq_getLast ds hne, hdig _ (List.getLast_mem hne)⟩
    obtain ⟨d, hdl, hdd⟩ := hd
    have hlast : ¬((cs ++ ds).getLast? = some '!' ∨ (cs ++ ds).getLast? = some '#') := by
      rw [List.getLast?_append_of_ne_nil cs hne, hdl]
      rintro (h | h) <;> (cases h; exact absurd hdd (by decide))
    simp only [_calc_mode_attrs, if_neg (not_not_intro hP), hcontent]
    rw [if_neg (by simp [List.isEmpty_iff, hne])]
    simp only [hsc, Bind.bind, Except.bind]
    rw [if_neg hlast]
    rw [fin1 { st with n_256 := some ds } ds rfl hle]
    rfl

/-- Witness for `n256_finalization` at the tag `"<#r,#42>"`: the literal
`42` is finalized at end-of-content with the background marker pending
and overwrites the symbolic background color red. -/
theorem n256_finalization_witness :
    _calc_mode_attrs "<#r,#42>".toList '<' '>' = .ok
      { resets := [], styles := [], bg_color := some (.num 42), fg_color := none,
        resets_of_styles := [] } :=
  n256_finalization.2.2 '<' '>' "#r,#".toList "42".toList
    { resets := [], styles := [], bg_color := some (.mode RED), fg_color := none,
      resets_of_styles := [], reset_marker := false, bg_marker := true, n_256 := none }
    (by decide) rfl rfl (by decide) (by decide) (by decide)

theorem depth1_cons_ob {ob cb : Char} {t : List Char} :
    Depth1 ob cb (ob :: t) ↔ OpenOK ob cb t := by
  constructor
  · intro h
    cases h with
    | lit c rest hc h => exact absurd rfl hc.1
    | tag content rest hc h =>
      exact ⟨content, rest, rfl, hc, h⟩
  · rintro ⟨content, rest, rfl, hc, h⟩
    exact Depth1.tag content rest hc h

theorem depth1_cons_cb {ob cb : Char} (hne : ob ≠ cb) {t : List Char} :
    ¬Depth1 ob cb (cb :: t) := by
  intro h
  cases h with
  | lit c rest hc h => exact absurd rfl hc.2
  | tag content rest hc h => exact hne rfl

theorem depth1_cons_other {ob cb c : Char} (h1 : c ≠ ob) (h2 : c ≠ cb) {t : List Char} :
    Depth1 ob cb (c :: t) ↔ Depth1 ob cb t := by
  constructor
  · intro h
    cases h with
    | lit c rest hc h => exact h
    | tag content rest hc h => exact absurd rfl h1
  · exact Depth1.lit c t ⟨h1, h2⟩

theorem openOK_nil {ob cb : Char} : ¬OpenOK ob cb [] := by
  rintro ⟨content, rest, h, -, -⟩
  exact List.noConfusion (List.append_eq_nil.mp h.symm).2

theorem openOK_cons_ob {ob cb : Char} (hne : ob ≠ cb) {t : List Char} :
    ¬OpenOK ob cb (ob :: t) := by
  rintro ⟨content, rest, h, hc, -⟩
  rcases content with _ | ⟨d, content'⟩
  · simp only [List.nil_append, List.cons.injEq] at h
    exact hne h.1
  · simp only [List.cons_append, List.cons.injEq] at h
    exact (hc d (List.mem_cons_self _ _)).1 h.1.symm

theorem openOK_cons_cb {ob cb : Char} {t : List Char} :
    OpenOK ob cb (cb :: t) ↔ Depth1 ob cb t := by
  constructor
  · rintro ⟨content, rest, h, hc, hd⟩
    rcases content with _ | ⟨d, content'⟩
    · simp only [List.nil_append, List.cons.injEq] at h
      exact h.2 ▸ hd
    · simp only [List.cons_append, List.cons.injEq] at h
      exact absurd h.1.symm (hc d (List.mem_cons_self _ _)).2
  · intro h
    exact ⟨[], t, rfl, by simp, h⟩

theorem openOK_cons_other {ob cb c : Char} (h1 : c ≠ ob) (h2 : c ≠ cb) {t : List Char} :
    OpenOK ob cb (c :: t) ↔ OpenOK ob cb t := by
  constructor
  · rintro ⟨content, rest, h, hc, hd⟩
    rcases content with _ | ⟨d, content'⟩
    · simp only [List.nil_append, List.cons.injEq] at h
      exact absurd h.1 h2
    · simp only [List.cons_append, List.cons.injEq] at h
      exact ⟨content', rest, h.2, fun e he => hc e (List.mem_cons_of_mem _ he), hd⟩
  · rintro ⟨content, rest, rfl, hc, hd⟩
    exact ⟨c :: content, rest, rfl, by
      intro e he
      rcases List.mem_cons.mp he with rfl | he
      · exact ⟨h1, h2⟩
      · exact hc e he, hd⟩

theorem checkBracketsLoop_iff {ob cb : Char} (hne : ob ≠ cb) :
    ∀ (t : List Char) (i obi : Nat),
      (checkBracketsLoop ob cb t i obi false = .ok () ↔ Depth1 ob cb t) ∧
      (checkBracketsLoop ob cb t i obi true = .ok () ↔ OpenOK ob cb t) := by
  intro t
  induction t with
  | nil =>
    intro i obi
    constructor
    · simp [checkBracketsLoop, Depth1.nil]
    · simp [checkBracketsLoop, openOK_nil]
  | cons c rest ih =>
    intro i obi
    by_cases hc1 : c = ob
    · subst hc1
      constructor
      · rw [checkBracketsLoop, if_pos rfl]
        simp only [Bool.false_eq_true, if_false]
        rw [(ih (i + 1) i).2, depth1_cons_ob]
      · rw [checkBracketsLoop, if_pos rfl]
        simp only [if_true]
        constructor
        · intro h
          exact Except.noConfusion h
        · intro h
          exact absurd h (openOK_cons_ob hne)
    · by_cases hc2 : c = cb
      · subst hc2
        constructor
        · rw [checkBracketsLoop, if_neg hc1, if_pos rfl]
          simp only [Bool.not_false, if_true]
          constructor
          · intro h
            exact Except.noConfusion h
          · intro h
            exact absurd h (depth1_cons_cb hne)
        · rw [checkBracketsLoop, if_neg hc1, if_pos rfl]
          simp only [Bool.not_true, Bool.false_eq_true, if_false]
          rw [(ih (i + 1) obi).1, openOK_cons_cb]
      · constructor
        · rw [checkBracketsLoop, if_neg hc1, if_neg hc2]
          rw [(ih (i + 1) obi).1, depth1_cons_other hc1 hc2]
        · rw [checkBracketsLoop, if_neg hc1, if_neg hc2]
          rw [(ih (i + 1) obi).2, openOK_cons_other hc1 hc2]

theorem checkBracketsLoop_err {ob cb : Char} {s : List Char} :
    ∀ (t p : List Char) (obi : Nat) (opened : Bool), s = p ++ t →
      (opened = true → obi < p.length ∧ s.get? obi = some ob) →
      ∀ (e : BracketErr), checkBracketsLoop ob cb t p.length obi opened = .error e →
      (match e with
       | .double_open a b => s.get? a = some ob ∧ s.get? b = some ob ∧ a < b
       | .unmatched_closed a => s.get? a = some cb
       | .unclosed_open a => s.get? a = some ob) := by
  intro t
  induction t with
  | nil =>
    intro p obi opened hs hinv e he
    rw [checkBracketsLoop] at he
    split_ifs at he with ho
    cases he
    exact (hinv ho).2
  | cons c rest ih =>
    intro p obi opened hs hinv e he
    have hsc : s.get? p.length = some c := by
      rw [hs, List.get?_append_right (Nat.le_refl _)]
      simp
    rw [checkBracketsLoop] at he
    split_ifs at he with h1 h2 h3 h4
    · -- c = ob, opened: double-open error
      cases he
      exact ⟨(hinv h2).2, h1 ▸ hsc, (hinv h2).1⟩
    · -- c = ob, not opened: recurse with obi := i, opened := true
      subst h1
      have := ih (p ++ [c]) p.length true (by simp [hs]) ?_ e ?_
      · exact this
      · intro _
        constructor
        · simp
        · exact hsc
      · simpa using he
    · -- c = cb, not opened: unmatched-closed error
      cases he
      exact h3 ▸ hsc
    · -- c = cb, opened: recurse with opened := false
      have := ih (p ++ [c]) obi false (by simp [hs]) (by intro hh; exact absurd hh (by simp)) e ?_
      · exact this
      · simpa using he
    · -- other character: recurse
      have := ih (p ++ [c]) obi opened (by simp [hs]) ?_ e ?_
      · exact this
      · intro ho
        refine ⟨Nat.lt_succ_of_lt (hinv ho).1 |>.trans_eq ?_, (hinv ho).2⟩
        simp
      · simpa using he

/-- C4: the bracket-balance check accepts a text exactly when every tag
delimiter in it is properly paired at nesting depth at most 1 (the
grammar `Depth1`: a sequence of non-delimiter characters and complete
`ob … cb` groups with delimiter-free interiors); otherwise it raises
exactly one of three errors, and the carried indices point at the
offending characters: double-open carries the indices of both openers
(the pending one first), unmatched-closer the index of the closer,
unclosed-opener the index of the still-open opener. -/
theorem check_brackets_correct (s : List Char) (ob cb : Char) (hne : ob ≠ cb) :
    (_check_brackets_match s ob cb = .ok () ↔ Depth1 ob cb s) ∧
    (∀ i j, _check_brackets_match s ob cb = .error (.double_open i j) →
       s.get? i = some ob ∧ s.get? j = some ob ∧ i < j) ∧
    (∀ i, _check_brackets_match s ob cb = .error (.unmatched_closed i) →
       s.get? i = some cb) ∧
    (∀ i, _check_brackets_match s ob cb = .error (.unclosed_open i) →
       s.get? i = some ob) := by
  refine ⟨(checkBracketsLoop_iff hne s 0 0).1, ?_, ?_, ?_⟩
  · intro i j h
    exact checkBracketsLoop_err s [] 0 false rfl (by simp) _ h
  · intro i h
    exact checkBracketsLoop_err s [] 0 false rfl (by simp) _ h
  · intro i h
    exact checkBracketsLoop_err s [] 0 false rfl (by simp) _ h

/-- Witness for `check_brackets_correct` with the default delimiters:
`"a<b>c"` is accepted and hence in the depth-1 language, and on
`"a<<"` the reported double-open indices 1 and 2 both hold openers. -/
theorem check_brackets_correct_witness :
    Depth1 '<' '>' "a<b>c".toList ∧
    ("a<<".toList.get? 1 = some '<' ∧ "a<<".toList.get? 2 = some '<' ∧ 1 < 2) :=
  ⟨(check_brackets_correct "a<b>c".toList '<' '>' (by decide)).1.mp (by rfl),
   (check_brackets_correct "a<<".toList '<' '>' (by decide)).2.1 1 2 (by rfl)⟩

theorem endsBangb_snoc (p : List Char) (c : Char) :
    endsBangb (p ++ [c]) = (c == '!') := by
  simp [endsBangb, List.getLast?_concat]

theorem endsHashb_snoc (p : List Char) (c : Char) :
    endsHashb (p ++ [c]) = (c == '#') := by
  simp [endsHashb, List.getLast?_concat]

theorem digitSuffix_snoc (p : List Char) (c : Char) :
    digitSuffix (p ++ [c]) = if c.isDigit then digitSuffix p ++ [c] else [] := by
  simp only [digitSuffix, List.reverse_append, List.reverse_singleton,
    List.singleton_append, List.takeWhile_cons]
  split
  · simp
  · simp

theorem lastNonDigitHashb_snoc (p : List Char) (c : Char) :
    lastNonDigitHashb (p ++ [c]) =
      if c.isDigit then lastNonDigitHashb p else (c == '#') := by
  simp only [lastNonDigitHashb, List.reverse_append, List.reverse_singleton,
    List.singleton_append, List.dropWhile_cons]
  split
  · rfl
  · simp

theorem lastNonDigitHashb_of_no_suffix {p : List Char} (h : digitSuffix p = []) :
    lastNonDigitHashb p = endsHashb p := by
  simp only [digitSuffix, List.reverse_eq_nil_iff] at h
  rcases hq : p.reverse with _ | ⟨d, q⟩
  · simp [lastNonDigitHashb, endsHashb, hq,
      show p = [] from by simpa using congrArg List.reverse hq]
  · rw [hq] at h
    rw [List.takeWhile_cons] at h
    have hd : d.isDigit = false := by
      by_cases hdd : d.isDigit
      · rw [if_pos hdd] at h
        exact absurd h (by simp)
      · simpa using hdd
    have hp : p.getLast? = some d := by
      have : p = (d :: q).reverse := by simpa using congrArg List.reverse hq
      rw [this]
      simp [List.getLast?_concat]
    simp [lastNonDigitHashb, endsHashb, hq, List.dropWhile_cons, hd, hp]

theorem no_digit_last {p : List Char} (h : digitSuffix p ≠ []) :
    ∃ d, p.getLast? = some d ∧ d.isDigit = true := by
  simp only [digitSuffix, ne_eq, List.reverse_eq_nil_iff] at h
  rcases hq : p.reverse with _ | ⟨d, q⟩
  · rw [hq] at h
    simp at h
  · rw [hq, List.takeWhile_cons] at h
    have hd : d.isDigit = true := by
      by_cases hdd : d.isDigit
      · exact hdd
      · rw [if_neg hdd] at h
        simp at h
    refine ⟨d, ?_, hd⟩
    have : p = (d :: q).reverse := by simpa using congrArg List.reverse hq
    rw [this]
    simp [List.getLast?_concat]

theorem endsBangb_of_suffix {p : List Char} (h : digitSuffix p ≠ []) :
    endsBangb p = false := by
  obtain ⟨d, hd, hdig⟩ := no_digit_last h
  simp only [endsBangb, hd]
  have : d ≠ '!' := fun hh => by
    rw [hh] at hdig
    exact absurd hdig (by decide)
  simpa using this

theorem endsHashb_of_suffix {p : List Char} (h : digitSuffix p ≠ []) :
    endsHashb p = false := by
  obtain ⟨d, hd, hdig⟩ := no_digit_last h
  simp only [endsHashb, hd]
  have : d ≠ '#' := fun hh => by
    rw [hh] at hdig
    exact absurd hdig (by decide)
  simpa using this

theorem endsHashb_of_bang {p : List Char} (h : endsBangb p = true) :
    endsHashb p = false := by
  simp only [endsBangb, beq_iff_eq] at h
  simp [endsHashb, h]

theorem scanInv_init : ScanInv [] initSt := by
  refine ⟨rfl, rfl, rfl⟩

theorem finalize_of_no_suffix {p : List Char} {st : ScanSt} (hds : digitSuffix p = [])
    (hlit : st.n_256 = (if digitSuffix p = [] then none else some (digitSuffix p))) :
    set_n_256_color st = .ok st :=
  set_n_256_color_none (by rw [hlit, if_pos hds])

theorem finalize_of_big {p : List Char} {st : ScanSt} (hds : digitSuffix p ≠ [])
    (hbig : bigLitb p = true)
    (hlit : st.n_256 = (if digitSuffix p = [] then none else some (digitSuffix p))) :
    set_n_256_color st = .error (.invalid_key (String.mk (digitSuffix p))) := by
  rw [set_n_256_color_some (by rw [hlit, if_neg hds]), if_pos]
  simp only [bigLitb, Bool.and_eq_true, decide_eq_true_eq] at hbig
  exact hbig.2

theorem finalize_of_small {p : List Char} {st : ScanSt} (hds : digitSuffix p ≠ [])
    (hbig : bigLitb p = false)
    (hlit : st.n_256 = (if digitSuffix p = [] then none else some (digitSuffix p))) :
    set_n_256_color st = .ok { st with
      fg_color := if st.bg_marker then st.fg_color
        else some (.num (digitsToNat (digitSuffix p))),
      bg_color := if st.bg_marker then some (.num (digitsToNat (digitSuffix p)))
        else st.bg_color,
      n_256 := none, bg_marker := false } := by
  rw [set_n_256_color_some (by rw [hlit, if_neg hds]), if_neg]
  intro hgt
  have hb : bigLitb p = true := by
    simp [bigLitb, List.isEmpty_iff, hds, hgt]
  rw [hb] at hbig
  simp at hbig

theorem suffix_of_big {p : List Char} (h : bigLitb p = true) : digitSuffix p ≠ [] := by
  simp only [bigLitb, Bool.and_eq_true, Bool.not_eq_true', List.isEmpty_iff] at h
  simp only [ne_eq]
  intro hh
  rw [hh] at h
  exact absurd h.1 (by simp)

theorem scanStep_inv {p : List Char} {st : ScanSt} (hinv : ScanInv p st) (c : Char) :
    ((∃ e, scanStep st c = .error e) ↔ stepErrb p c = true) ∧
    (∀ st', scanStep st c = .ok st' → ScanInv (p ++ [c]) st') := by
  obtain ⟨hrm, hbm, hlit⟩ := hinv
  by_cases hc1 : c = '#'
  · subst hc1
    have hse : stepErrb p '#' = (endsBangb p || lastNonDigitHashb p || bigLitb p) := rfl
    rw [hse, scanStep_eq_hash, hrm, hbm]
    cases hB : endsBangb p with
    | true =>
      simp only [if_pos rfl, Bool.true_or]
      exact ⟨by simp, by intro st' h; exact Except.noConfusion h⟩
    | false =>
      simp only [Bool.false_eq_true, if_false, Bool.false_or]
      cases hH : lastNonDigitHashb p with
      | true =>
        simp only [if_pos rfl, Bool.true_or]
        exact ⟨by simp, by intro st' h; exact Except.noConfusion h⟩
      | false =>
        simp only [Bool.false_eq_true, if_false, Bool.false_or]
        by_cases hds : digitSuffix p = []
        · rw [show bigLitb p = false by simp [bigLitb, hds]]
          rw [finalize_of_no_suffix hds hlit]
          simp only [Bind.bind, Except.bind]
          constructor
          · constructor
            · rintro ⟨e, he⟩
              exact Except.noConfusion he
            · intro h
              simp at h
          · intro st' h
            cases h
            refine ⟨?_, ?_, ?_⟩
            · simpa [endsBangb_snoc] using hrm.trans hB
            · simp [lastNonDigitHashb_snoc]
            · simpa [digitSuffix_snoc] using hlit.trans (if_pos hds)
        · cases hbig : bigLitb p with
          | true =>
            rw [finalize_of_big hds hbig hlit]
            simp only [Bind.bind, Except.bind]
            exact ⟨by simp, by intro st' h; exact Except.noConfusion h⟩
          | false =>
            rw [finalize_of_small hds hbig hlit]
            simp only [Bind.bind, Except.bind]
            constructor
            · constructor
              · rintro ⟨e, he⟩
                exact Except.noConfusion he
              · intro h
                simp at h
            · intro st' h
              cases h
              refine ⟨?_, ?_, ?_⟩
              · simpa [endsBangb_snoc] using hrm.trans hB
              · simp [lastNonDigitHashb_snoc]
              · simp [digitSuffix_snoc]
  by_cases hc2 : c = '!'
  · subst hc2
    have hse : stepErrb p '!' = (endsBangb p || lastNonDigitHashb p || bigLitb p) := rfl
    rw [hse, scanStep_eq_bang, hrm, hbm]
    cases hB : endsBangb p with
    | true =>
      simp only [if_pos rfl, Bool.true_or]
      exact ⟨by simp, by intro st' h; exact Except.noConfusion h⟩
    | false =>
      simp only [Bool.false_eq_true, if_false, Bool.false_or]
      cases hH : lastNonDigitHashb p with
      | true =>
        simp only [if_pos rfl, Bool.true_or]
        exact ⟨by simp, by intro st' h; exact Except.noConfusion h⟩
      | false =>
        simp only [Bool.false_eq_true, if_false, Bool.false_or]
        by_cases hds : digitSuffix p = []
        · rw [show bigLitb p = false by simp [bigLitb, hds]]
          rw [finalize_of_no_suffix hds hlit]
          simp only [Bind.bind, Except.bind]
          constructor
          · constructor
            · rintro ⟨e, he⟩
              exact Except.noConfusion he
            · intro h
              simp at h
          · intro st' h
            cases h
            refine ⟨?_, ?_, ?_⟩
            · simp [endsBangb_snoc]
            · simpa [lastNonDigitHashb_snoc] using hbm.trans hH
            · simpa [digitSuffix_snoc] using hlit.trans (if_pos hds)
        · cases hbig : bigLitb p with
          | true =>
            rw [finalize_of_big hds hbig hlit]
            simp only [Bind.bind, Except.bind]
            exact ⟨by simp, by intro st' h; exact Except.noConfusion h⟩
          | false =>
            rw [finalize_of_small hds hbig hlit]
            simp only [Bind.bind, Except.bind]
            constructor
            · constructor
              · rintro ⟨e, he⟩
                exact Except.noConfusion he
              · intro h
                simp at h
            · intro st' h
              cases h
              refine ⟨?_, ?_, ?_⟩
              · simp [endsBangb_snoc]
              · simp [lastNonDigitHashb_snoc]
              · simp [digitSuffix_snoc]
  by_cases hc3 : c ∈ tagSeparators
  · have hnd : c.isDigit = false := by
      simp only [tagSeparators, List.mem_cons, List.not_mem_nil, or_false] at hc3
      rcases hc3 with rfl | rfl | rfl | rfl <;> decide
    have hse : stepErrb p c = (endsBangb p || bigLitb p || endsHashb p) := by
      simp [stepErrb, tagMarkers, hc1, hc2, hc3]
    rw [hse, scanStep_eq_sep hc1 hc2 hc3, hrm]
    cases hB : endsBangb p with
    | true =>
      simp only [if_pos rfl, Bool.true_or]
      exact ⟨by simp, by intro st' h; exact Except.noConfusion h⟩
    | false =>
      simp only [Bool.false_eq_true, if_false, Bool.false_or]
      by_cases hds : digitSuffix p = []
      · rw [show bigLitb p = false by simp [bigLitb, hds]]
        rw [finalize_of_no_suffix hds hlit]
        simp only [Bind.bind, Except.bind, hbm, lastNonDigitHashb_of_no_suffix hds,
          Bool.false_or]
        cases hE : endsHashb p with
        | true =>
          simp only [if_pos rfl]
          exact ⟨by simp, by intro st' h; exact Except.noConfusion h⟩
        | false =>
          simp only [Bool.false_eq_true, if_false]
          constructor
          · constructor
            · rintro ⟨e, he⟩
              exact Except.noConfusion he
            · intro h
              simp at h
          · intro st' h
            cases h
            refine ⟨?_, ?_, ?_⟩
            · rw [hrm, hB, endsBangb_snoc]
              simp [hc2]
            · rw [hbm, lastNonDigitHashb_of_no_suffix hds, hE, lastNonDigitHashb_snoc]
              simp [hnd, hc1]
            · rw [hlit, if_pos hds, digitSuffix_snoc]
              simp [hnd, hds]
      · have hE : endsHashb p = false := endsHashb_of_suffix hds
        rw [hE]
        cases hbig : bigLitb p with
        | true =>
          rw [finalize_of_big hds hbig hlit]
          simp only [Bind.bind, Except.bind]
          exact ⟨by simp, by intro st' h; exact Except.noConfusion h⟩
        | false =>
          rw [finalize_of_small hds hbig hlit]
          simp only [Bind.bind, Except.bind, Bool.false_eq_true, if_false, Bool.or_false]
          constructor
          · constructor
            · rintro ⟨e, he⟩
              exact Except.noConfusion he
            · intro h
              simp at h
          · intro st' h
            cases h
            refine ⟨?_, ?_, ?_⟩
            · rw [hrm, hB, endsBangb_snoc]
              simp [hc2]
            · rw [lastNonDigitHashb_snoc]
              simp [hnd, hc1]
            · rw [digitSuffix_snoc]
              simp [hnd]
  by_cases hc4 : c.isDigit
  · have hse : stepErrb p c = endsBangb p := by
      simp [stepErrb, tagMarkers, hc1, hc2, hc3, hc4]
    rw [hse, scanStep_eq_digit hc1 hc2 hc3 hc4, hrm]
    cases hB : endsBangb p with
    | true =>
      simp only [if_pos rfl]
      exact ⟨by simp, by intro st' h; exact Except.noConfusion h⟩
    | false =>
      simp only [Bool.false_eq_true, if_false]
      constructor
      · constructor
        · rintro ⟨e, he⟩
          exact Except.noConfusion he
        · intro h
          simp at h
      · intro st' h
        cases h
        refine ⟨?_, ?_, ?_⟩
        · rw [endsBangb_snoc]
          simp [hc2]
        · rw [hbm, lastNonDigitHashb_snoc, if_pos hc4]
        · rw [digitSuffix_snoc, if_pos hc4]
          rw [hlit]
          by_cases hds : digitSuffix p = []
          · simp [hds]
          · simp [hds]
  · by_cases hmem : c ∈ _ALL_KEY_LETTERS
    · have hse : stepErrb p c = (bigLitb p ||
          (endsHashb p && (_COLOR_MODES_FOR_FORMAT_CHARS c).isNone) ||
          (endsBangb p && (_RESET_MODES_FOR_FORMAT_CHARS c).isNone)) := by
        simp [stepErrb, tagMarkers, hc1, hc2, hc3, hc4, hmem]
      rw [hse, scanStep_eq_other hc1 hc2 hc3 hc4, if_neg (not_not_intro hmem)]
      have hbang_ne : (c == '!') = false := by
        simpa using hc2
      have hhash_ne : (c == '#') = false := by
        simpa using hc1
      by_cases hds : digitSuffix p = []
      · rw [show bigLitb p = false by simp [bigLitb, hds]]
        rw [finalize_of_no_suffix hds hlit]
        simp only [Bind.bind, Except.bind, hbm, lastNonDigitHashb_of_no_suffix hds,
          Bool.false_or]
        cases hE : endsHashb p with
        | true =>
          simp only [if_pos rfl, Bool.true_and]
          have hBf : endsBangb p = false := by
            cases hBB : endsBangb p with
            | false => rfl
            | true => rw [endsHashb_of_bang hBB] at hE; simp at hE
          rw [hBf]
          simp only [Bool.false_and, Bool.or_false]
          rcases hcol : _COLOR_MODES_FOR_FORMAT_CHARS c with _ | m
          · simp only [hcol, Option.isNone_none]
            exact ⟨by simp, by intro st' h; exact Except.noConfusion h⟩
          · simp only [hcol, Option.isNone_some]
            constructor
            · constructor
              · rintro ⟨e, he⟩
                exact Except.noConfusion he
              · intro h
                simp at h
            · intro st' h
              cases h
              refine ⟨?_, ?_, ?_⟩
              · rw [hrm, hBf, endsBangb_snoc, hbang_ne]
              · rw [lastNonDigitHashb_snoc]
                simp only [hc4, Bool.false_eq_true, if_false]
                rw [hhash_ne]
              · rw [digitSuffix_snoc]
                simp only [hc4, Bool.false_eq_true, if_false]
                simp [hlit, hds]
        | false =>
          simp only [Bool.false_eq_true, if_false, Bool.false_and, Bool.false_or]
          rw [hrm]
          cases hB : endsBangb p with
          | true =>
            simp only [if_pos rfl, Bool.true_and]
            rcases hres : _RESET_MODES_FOR_FORMAT_CHARS c with _ | rm2
            · simp only [hres, Option.isNone_none]
              exact ⟨by simp, by intro st' h; exact Except.noConfusion h⟩
            · simp only [hres, Option.isNone_some]
              constructor
              · constructor
                · rintro ⟨e, he⟩
                  exact Except.noConfusion he
                · intro h
                  simp at h
              · intro st' h
                cases h
                refine ⟨?_, ?_, ?_⟩
                · rw [endsBangb_snoc, hbang_ne]
                · rw [lastNonDigitHashb_snoc]
                  simp [hc4, hhash_ne]
                · rw [digitSuffix_snoc]
                  simp only [hc4, Bool.false_eq_true, if_false]
                  simp [hlit, hds]
          | false =>
            simp only [Bool.false_eq_true, if_false, Bool.false_and, Bool.or_false]
            have hok : ∀ st', scanStep st c = .ok st' → True := fun _ _ => trivial
            rcases hsty : _STYLE_MODES_FOR_FORMAT_CHARS c with _ | style
            all_goals simp only [hsty]
            all_goals constructor
            · constructor
              · rintro ⟨e, he⟩
                exact Except.noConfusion he
              · intro h
                simp at h
            · intro st' h
              cases h
              refine ⟨?_, ?_, ?_⟩
              · rw [endsBangb_snoc, hbang_ne]
              · rw [lastNonDigitHashb_snoc]
                simp [hc4, hhash_ne]
              · rw [digitSuffix_snoc]
                simp only [hc4, Bool.false_eq_true, if_false]
                simp [hlit, hds]
            · constructor
              · rintro ⟨e, he⟩
                exact Except.noConfusion he
              · intro h
                simp at h
            · intro st' h
              cases h
              refine ⟨?_, ?_, ?_⟩
              · rw [endsBangb_snoc, hbang_ne]
              · rw [lastNonDigitHashb_snoc]
                simp [hc4, hhash_ne]
              · rw [digitSuffix_snoc]
                simp only [hc4, Bool.false_eq_true, if_false]
                simp [hlit, hds]
      · have hE : endsHashb p = false := endsHashb_of_suffix hds
        have hB : endsBangb p = false := endsBangb_of_suffix hds
        rw [hE, hB]
        simp only [Bool.false_and, Bool.or_false]
        cases hbig : bigLitb p with
        | true =>
          rw [finalize_of_big hds hbig hlit]
          simp only [Bind.bind, Except.bind]
          exact ⟨by simp, by intro st' h; exact Except.noConfusion h⟩
        | false =>
          rw [finalize_of_small hds hbig hlit]
          simp only [Bind.bind, Except.bind, Bool.false_eq_true, if_false]
          rw [hrm, hB]
          simp only [Bool.false_eq_true, if_false]
          rcases hsty : _STYLE_MODES_FOR_FORMAT_CHARS c with _ | style
          all_goals simp only [hsty]
          all_goals constructor
          · constructor
            · rintro ⟨e, he⟩
              exact Except.noConfusion he
            · intro h
              simp at h
          · intro st' h
            cases h
            refine ⟨?_, ?_, ?_⟩
            · rw [endsBangb_snoc, hbang_ne]
            · rw [lastNonDigitHashb_snoc]
              simp only [hc4, Bool.false_eq_true, if_false]
              rw [hhash_ne]
            · rw [digitSuffix_snoc]
              simp [hc4]
          · constructor
            · rintro ⟨e, he⟩
              exact Except.noConfusion he
            · intro h
              simp at h
          · intro st' h
            cases h
            refine ⟨?_, ?_, ?_⟩
            · rw [endsBangb_snoc, hbang_ne]
            · rw [lastNonDigitHashb_snoc]
              simp only [hc4, Bool.false_eq_true, if_false]
              rw [hhash_ne]
            · rw [digitSuffix_snoc]
              simp [hc4]
    · have hse : stepErrb p c = true := by
        simp [stepErrb, tagMarkers, hc1, hc2, hc3, hc4, hmem]
      rw [hse, scanStep_eq_other hc1 hc2 hc3 hc4, if_pos hmem]
      exact ⟨by simp, by intro st' h; exact Except.noConfusion h⟩

theorem scanList_inv : ∀ (t p : List Char) (st : ScanSt), ScanInv p st →
    ((∃ e, scanList st t = .error e) ↔ stepsErrAux p t = true) ∧
    (∀ st', scanList st t = .ok st' → ScanInv (p ++ t) st') := by
  intro t
  induction t with
  | nil =>
    intro p st hinv
    constructor
    · simp only [scanList, stepsErrAux]
      constructor
      · rintro ⟨e, he⟩
        exact Except.noConfusion he
      · intro h
        simp at h
    · intro st' h
      cases h
      simpa using hinv
  | cons c rest ih =>
    intro p st hinv
    obtain ⟨hiff, hinv'⟩ := scanStep_inv hinv c
    rcases hstep : scanStep st c with e | st1
    · have herr : stepErrb p c = true := hiff.mp ⟨e, hstep⟩
      constructor
      · simp [scanList, hstep, Bind.bind, Except.bind, stepsErrAux, herr]
      · intro st' h
        rw [scanList, hstep] at h
        simp only [Bind.bind, Except.bind] at h
        exact Except.noConfusion h
    · have hok : stepErrb p c = false := by
        cases hv : stepErrb p c with
        | false => rfl
        | true =>
          obtain ⟨e, he⟩ := hiff.mpr hv
          rw [hstep] at he
          exact Except.noConfusion he
      have hinv1 : ScanInv (p ++ [c]) st1 := hinv' st1 hstep
      obtain ⟨ih1, ih2⟩ := ih (p ++ [c]) st1 hinv1
      constructor
      · rw [scanList, hstep]
        simp only [Bind.bind, Except.bind, stepsErrAux, hok, Bool.false_or]
        exact ih1
      · intro st' h
        rw [scanList, hstep] at h
        simp only [Bind.bind, Except.bind] at h
        have := ih2 st' h
        simpa [List.append_assoc] using this

/-- C2, counterexample: parsing the tag `"<#f>"` raises a malformed-tag
error (the background marker is followed by the style key `'f'`, which
is not a color key), yet none of the failure conditions listed by the
claim holds for it. -/
theorem tag_parse_error_conditions_cx :
    _calc_mode_attrs "<#f>".toList '<' '>' = .error (.invalid_key "#f") ∧
    claimedMalformedOrig "<#f>".toList '<' '>' = false := by
  refine ⟨by rfl, by rfl⟩

/-- C2, amended: parsing a tag fails exactly when the tag text is not
wrapped in the configured delimiters, or one of the position-wise
conditions of `stepErrb` holds somewhere in the content — an
unrecognized character; a marker preceded by a reset marker, or by a
background marker possibly separated by an intervening digit run; a
separator preceded by a reset marker or directly by a background
marker; a digit preceded by a reset marker; a key letter preceded by a
background marker when it is not a color key, or by a reset marker when
it is not a reset key (the latter failing with a `TypeError` rather
than the intended `ValueError`, because the error helper is called with
two arguments); an over-255 numeric literal at its finalization — or
the content ends in a dangling marker or in an open over-255 literal
(`endCondb`).  In particular, parsing `"<##>"` fails with the
marker-adjacency error `'##'`. -/
theorem tag_parse_error_characterization :
    (∀ (s : List Char) (ob cb : Char),
       (∃ e, _calc_mode_attrs s ob cb = .error e) ↔ tagMalformed s ob cb = true) ∧
    _calc_mode_attrs "<##>".toList '<' '>' = .error (.invalid_key "##") := by
  refine ⟨?_, by rfl⟩
  intro s ob cb
  by_cases hw : s.head? = some ob ∧ s.getLast? = some cb
  · have hwb : (s.head? == some ob && s.getLast? == some cb) = true := by
      simp [hw.1, hw.2]
    rw [_calc_mode_attrs, if_neg (not_not_intro hw), tagMalformed, hwb]
    simp only [Bool.not_true, Bool.false_or]
    set content := (s.drop 1).dropLast with hcontent
    by_cases hemp : content.isEmpty
    · rw [if_pos hemp]
      have hcnil : content = [] := by simpa [List.isEmpty_iff] using hemp
      rw [hcnil]
      constructor
      · rintro ⟨e, he⟩
        exact Except.noConfusion he
      · intro h
        rw [show (stepsErrAux [] [] || endCondb []) = false from rfl] at h
        exact Bool.noConfusion h
    · rw [if_neg hemp]
      rcases hscan : scanList initSt content with e | st
      · have : stepsErrAux [] content = true :=
          ((scanList_inv content [] initSt scanInv_init).1).mp ⟨e, hscan⟩
        rw [this]
        simp only [Bool.true_or, iff_true]
        refine ⟨e, ?_⟩
        simp [Bind.bind, Except.bind]
      · have hnoerr : stepsErrAux [] content = false := by
          cases hv : stepsErrAux [] content with
          | false => rfl
          | true =>
            obtain ⟨e, he⟩ := ((scanList_inv content [] initSt scanInv_init).1).mpr hv
            rw [hscan] at he
            exact Except.noConfusion he
        have hinv : ScanInv content st :=
          (scanList_inv content [] initSt scanInv_init).2 st (by simpa using hscan)
        obtain ⟨hrm, hbm, hlit⟩ := hinv
        rw [hnoerr]
        simp only [Bool.false_or]
        by_cases hm : content.getLast? = some '!' ∨ content.getLast? = some '#'
        · have hmb : (content.getLast? == some '!' || content.getLast? == some '#') = true := by
            rcases hm with h | h <;> simp [h]
          rw [endCondb, hmb]
          simp only [Bool.true_or, iff_true]
          refine ⟨.invalid_key "expected key after '!' or '#'", ?_⟩
          simp only [Bind.bind, Except.bind]
          rw [if_pos hm]
        · have hmb : (content.getLast? == some '!' || content.getLast? == some '#') = false := by
            simp only [not_or] at hm
            simp [hm.1, hm.2]
          rw [endCondb, hmb]
          simp only [Bool.false_or]
          by_cases hds : digitSuffix content = []
          · have hfin := finalize_of_no_suffix hds hlit
            rw [show bigLitb content = false by simp [bigLitb, hds]]
            constructor
            · rintro ⟨e, he⟩
              simp only [Bind.bind, Except.bind] at he
              rw [if_neg hm] at he
              rw [hfin] at he
              simp only [Bind.bind, Except.bind] at he
              exact Except.noConfusion he
            · intro h
              exact Bool.noConfusion h
          · cases hbig : bigLitb content with
            | true =>
              simp only [iff_true]
              refine ⟨.invalid_key (String.mk (digitSuffix content)), ?_⟩
              simp only [Bind.bind, Except.bind]
              rw [if_neg hm, finalize_of_big hds hbig hlit]
            | false =>
              have hfin := finalize_of_small hds hbig hlit
              constructor
              · rintro ⟨e, he⟩
                simp only [Bind.bind, Except.bind] at he
                rw [if_neg hm, hfin] at he
                simp only [Bind.bind, Except.bind] at he
                exact Except.noConfusion he
              · intro h
                exact Bool.noConfusion h
  · have hwb : (s.head? == some ob && s.getLast? == some cb) = false := by
      rcases not_and_or.mp hw with h | h <;> simp [h]
    rw [_calc_mode_attrs, if_pos hw, tagMalformed, hwb]
    simp only [Bool.not_false, Bool.true_or, iff_true]
    exact ⟨.bad_brackets s, rfl⟩

end FancyIO
